import Mathlib

/-!
A verification development for the `singer-rust` repository: the Singer
message model (`singer_rust/src/message/types.rs`), the streaming dispatcher
(`singer_rust/src/message/io.rs`), the schema translator and columnar batch
builder (`singer_arrow/src/lib.rs`), and the batched parquet sink
(`singer_arrow/src/sink.rs`, `singer_arrow/src/target.rs`).

JSON documents are modelled by the inductive `Json` below.  The wire text
layer (`serde_json` in the source) is embedded as an executable renderer
`Json.renderL` mirroring `serde_json::to_string` (compact output, serde's
escape table) and an executable parser `parseJsonVal` for that compact
grammar.  Model boundaries, each noted where it matters: numbers are
integers (no floats, which have no faithful embedding here), objects are
finite maps (the parser rejects duplicate keys, insignificant whitespace,
and surrogate-pair escapes), and key order is kept as written rather than
re-sorted the way `serde_json`'s `BTreeMap` representation sorts it.
-/

/-- A JSON value, as used for the `serde_json::Value` payloads of Singer
messages. Numbers are integers; see the module comment for the model
boundary. -/
inductive Json where
  | null
  | bool (b : Bool)
  | num (n : Int)
  | str (s : String)
  | arr (elems : List Json)
  | obj (members : List (String × Json))
deriving Repr

/-- The opening-brace character, written numerically. -/
def lbrace : Char := Char.ofNat 123

/-- The closing-brace character, written numerically. -/
def rbrace : Char := Char.ofNat 125

/-- Is `c` a decimal digit? -/
def isDigitCh (c : Char) : Bool := 48 ≤ c.toNat && c.toNat ≤ 57

/-- The lowercase hex digit for `n < 16`, as `serde_json` emits in `\u00XX`
escapes. -/
def hexCh (n : Nat) : Char :=
  if n < 10 then Char.ofNat (48 + n) else Char.ofNat (87 + n)

/-- One character of a JSON string, escaped exactly as `serde_json` escapes
it: `"` and `\` get a backslash, the five control characters with short
escapes use them, the remaining control characters become `\u00XX`, and
everything else is emitted raw. -/
def escapeCh (c : Char) : List Char :=
  if c = '"' then ['\\', '"']
  else if c = '\\' then ['\\', '\\']
  else if c.toNat = 8 then ['\\', 'b']
  else if c = '\t' then ['\\', 't']
  else if c = '\n' then ['\\', 'n']
  else if c.toNat = 12 then ['\\', 'f']
  else if c = '\r' then ['\\', 'r']
  else if c.toNat < 32 then ['\\', 'u', '0', '0', hexCh (c.toNat / 16), hexCh (c.toNat % 16)]
  else [c]

/-- A JSON string literal: quote, escaped characters, quote. -/
def renderStrL (s : String) : List Char :=
  '"' :: (s.data.flatMap escapeCh ++ ['"'])

/-- Decimal digit characters, most significant first, prepended to `acc`;
`fuel` is structural so the kernel can evaluate (any `fuel > n` is enough). -/
def natCharsAux : Nat → Nat → List Char → List Char
  | 0, _, acc => acc
  | fuel + 1, n, acc =>
    if n < 10 then Char.ofNat (48 + n) :: acc
    else natCharsAux fuel (n / 10) (Char.ofNat (48 + n % 10) :: acc)

/-- The decimal digit characters of `n`, most significant first. -/
def natChars (n : Nat) : List Char := natCharsAux (n + 1) n []

/-- The decimal rendering of an integer: optional minus sign, then digits. -/
def intChars (i : Int) : List Char :=
  if i < 0 then '-' :: natChars i.natAbs else natChars i.natAbs

mutual
/-- Render a JSON value as the character list of its compact serialization,
matching `serde_json::to_string` output. -/
def Json.renderL : Json → List Char
  | .null => (['n', 'u', 'l', 'l'] : List Char)
  | .bool true => (['t', 'r', 'u', 'e'] : List Char)
  | .bool false => (['f', 'a', 'l', 's', 'e'] : List Char)
  | .num i => intChars i
  | .str s => renderStrL s
  | .arr [] => ['[', ']']
  | .arr (x :: xs) => '[' :: (Json.renderL x ++ Json.renderArrTailL xs)
  | .obj [] => [lbrace, rbrace]
  | .obj (kv :: kvs) => lbrace :: (Json.renderMemberL kv ++ Json.renderObjTailL kvs)

/-- The rendering of the elements after the first one, plus the closing
bracket. -/
def Json.renderArrTailL : List Json → List Char
  | [] => [']']
  | y :: ys => ',' :: (Json.renderL y ++ Json.renderArrTailL ys)

/-- One rendered object member: `"key":value`. -/
def Json.renderMemberL : String × Json → List Char
  | (k, v) => renderStrL k ++ ':' :: Json.renderL v

/-- The rendering of the members after the first one, plus the closing
brace. -/
def Json.renderObjTailL : List (String × Json) → List Char
  | [] => [rbrace]
  | kv :: kvs => ',' :: (Json.renderMemberL kv ++ Json.renderObjTailL kvs)
end

/-- Render a JSON value to its compact serialization, as
`serde_json::to_string` / `Value::to_string` produce it. -/
def Json.render (j : Json) : String := String.mk (Json.renderL j)

/-- The value of a hex digit character, if it is one. -/
def hexChVal (c : Char) : Option Nat :=
  if 48 ≤ c.toNat && c.toNat ≤ 57 then some (c.toNat - 48)
  else if 97 ≤ c.toNat && c.toNat ≤ 102 then some (c.toNat - 87)
  else if 65 ≤ c.toNat && c.toNat ≤ 70 then some (c.toNat - 55)
  else none

/-- The single-character escapes accepted after a backslash. -/
def unescapeCh (c : Char) : Option Char :=
  if c = '"' then some '"'
  else if c = '\\' then some '\\'
  else if c = '/' then some '/'
  else if c = 'b' then some (Char.ofNat 8)
  else if c = 'f' then some (Char.ofNat 12)
  else if c = 'n' then some '\n'
  else if c = 'r' then some '\r'
  else if c = 't' then some '\t'
  else none

/-- Parse the body of a JSON string up to its closing quote, unescaping as
we go; `acc` holds the characters read so far, reversed.  Raw control
characters are rejected, as is a `\u` escape denoting a surrogate (the
model boundary: surrogate pairs are not combined). -/
def parseStrBody : List Char → List Char → Option (String × List Char)
  | _, [] => none
  | acc, c :: cs =>
    if c = '"' then some (String.mk acc.reverse, cs)
    else if c = '\\' then
      match cs with
      | [] => none
      | e :: cs' =>
        if e = 'u' then
          match cs' with
          | a :: b :: c2 :: d :: cs'' =>
            match hexChVal a, hexChVal b, hexChVal c2, hexChVal d with
            | some va, some vb, some vc, some vd =>
              let v := ((va * 16 + vb) * 16 + vc) * 16 + vd
              if 55296 ≤ v && v < 57344 then none
              else parseStrBody (Char.ofNat v :: acc) cs''
            | _, _, _, _ => none
          | _ => none
        else
          match unescapeCh e with
          | some ch => parseStrBody (ch :: acc) cs'
          | none => none
    else if c.toNat < 32 then none
    else parseStrBody (c :: acc) cs

/-- Take the longest digit prefix of the input. -/
def digitRun : List Char → List Char × List Char
  | [] => ([], [])
  | c :: cs =>
    if isDigitCh c then
      let p := digitRun cs
      (c :: p.1, p.2)
    else ([], c :: cs)

/-- The numeric value of a digit-character run, most significant first. -/
def digitsVal (ds : List Char) : Nat :=
  ds.foldl (fun a c => 10 * a + (c.toNat - 48)) 0

/-- A digit run with a redundant leading zero (`01`, `007`), which the
JSON number grammar — and so `serde_json` — rejects. -/
def leadingZeroB : List Char → Bool
  | c :: _ :: _ => c == '0'
  | _ => false

/-- Parse an integer: optional minus sign, then a nonempty digit run with
no redundant leading zero (`serde_json` rejects `01` as invalid JSON). -/
def parseIntL : List Char → Option (Int × List Char)
  | '-' :: r =>
    match digitRun r with
    | ([], _) => none
    | (ds, rest) => if leadingZeroB ds then none else some (-(digitsVal ds : Int), rest)
  | input =>
    match digitRun input with
    | ([], _) => none
    | (ds, rest) => if leadingZeroB ds then none else some ((digitsVal ds : Int), rest)

/-- Do the member keys avoid duplicates?  The parser enforces this, since
JSON objects are modelled as finite maps. -/
def nodupKeysB : List (String × Json) → Bool
  | [] => true
  | (k, _) :: kvs => !((kvs.map Prod.fst).contains k) && nodupKeysB kvs

mutual
/-- Parse one JSON value from compact text.  `fuel` only bounds recursion
depth; `Json.parse` supplies enough for any input. -/
def parseJsonVal : Nat → List Char → Option (Json × List Char)
  | 0, _ => none
  | fuel + 1, input =>
    match input with
    | 'n' :: 'u' :: 'l' :: 'l' :: r => some (.null, r)
    | 't' :: 'r' :: 'u' :: 'e' :: r => some (.bool true, r)
    | 'f' :: 'a' :: 'l' :: 's' :: 'e' :: r => some (.bool false, r)
    | '"' :: r => (parseStrBody [] r).map fun p => (.str p.1, p.2)
    | '[' :: ']' :: r => some (.arr [], r)
    | '[' :: r => (parseArrItems fuel r).map fun p => (.arr p.1, p.2)
    | c :: r =>
      if c = lbrace then
        match r with
        | [] => none
        | c2 :: r2 =>
          if c2 = rbrace then some (.obj [], r2)
          else
            match parseObjMembers fuel r with
            | some (ms, rest) => if nodupKeysB ms then some (.obj ms, rest) else none
            | none => none
      else if c = '-' || isDigitCh c then
        (parseIntL (c :: r)).map fun p => (.num p.1, p.2)
      else none
    | [] => none

/-- Parse the comma-separated values of a nonempty array, consuming the
closing bracket. -/
def parseArrItems : Nat → List Char → Option (List Json × List Char)
  | 0, _ => none
  | fuel + 1, input =>
    match parseJsonVal fuel input with
    | none => none
    | some (v, r) =>
      match r with
      | ',' :: r' =>
        match parseArrItems fuel r' with
        | some (vs, r'') => some (v :: vs, r'')
        | none => none
      | ']' :: r' => some ([v], r')
      | _ => none

/-- Parse the `"key":value` members of a nonempty object, consuming the
closing brace. -/
def parseObjMembers : Nat → List Char → Option (List (String × Json) × List Char)
  | 0, _ => none
  | fuel + 1, input =>
    match input with
    | '"' :: r =>
      match parseStrBody [] r with
      | none => none
      | some (k, r1) =>
        match r1 with
        | ':' :: r2 =>
          match parseJsonVal fuel r2 with
          | none => none
          | some (v, r3) =>
            match r3 with
            | ',' :: r4 =>
              match parseObjMembers fuel r4 with
              | some (ms, r5) => some ((k, v) :: ms, r5)
              | none => none
            | c :: r4 => if c = rbrace then some ([(k, v)], r4) else none
            | [] => none
        | _ => none
    | _ => none
end

/-- Parse a complete compact JSON document: one value, then end of input. -/
def Json.parse (s : String) : Option Json :=
  match parseJsonVal (s.data.length + 1) s.data with
  | some (j, []) => some j
  | _ => none

/-! ### Well-formed JSON values

`serde_json::Value` keeps objects as maps, so every value constructible in
the source has duplicate-free keys at every level.  `Json.wfB` captures
that; round-trip statements assume it. -/

mutual
/-- Every object inside the value has duplicate-free keys. -/
def Json.wfB : Json → Bool
  | .null => true
  | .bool _ => true
  | .num _ => true
  | .str _ => true
  | .arr xs => Json.wfArrB xs
  | .obj kvs => nodupKeysB kvs && Json.wfObjB kvs

/-- `Json.wfB` over an array's elements. -/
def Json.wfArrB : List Json → Bool
  | [] => true
  | x :: xs => Json.wfB x && Json.wfArrB xs

/-- `Json.wfB` over an object's member values. -/
def Json.wfObjB : List (String × Json) → Bool
  | [] => true
  | (_, v) :: kvs => Json.wfB v && Json.wfObjB kvs
end

/-! ### Integer round-trip -/

/-- The remainder cannot extend a digit run: empty, or a non-digit head.
Every delimiter a rendered number is followed by qualifies. -/
def numStop : List Char → Bool
  | [] => true
  | c :: _ => !isDigitCh c

theorem toNat_digitCh (d : Nat) (h : d < 10) : (Char.ofNat (48 + d)).toNat = 48 + d := by
  interval_cases d <;> decide

theorem isDigitCh_digitCh (d : Nat) (h : d < 10) : isDigitCh (Char.ofNat (48 + d)) = true := by
  interval_cases d <;> decide

theorem natCharsAux_eq_digits (fuel : Nat) : ∀ (n : Nat) (acc : List Char),
    n < fuel → 0 < n →
    natCharsAux fuel n acc
      = ((Nat.digits 10 n).reverse.map fun d => Char.ofNat (48 + d)) ++ acc := by
  induction fuel with
  | zero => intro n acc h; omega
  | succ f ih =>
    intro n acc hlt hpos
    rw [natCharsAux]
    by_cases h10 : n < 10
    · rw [if_pos h10, Nat.digits_def' (by norm_num : (1 : Nat) < 10) hpos]
      rw [show n / 10 = 0 by omega, Nat.digits_zero, show n % 10 = n by omega]
      simp
    · rw [if_neg h10, ih (n / 10) _ (by omega) (by omega)]
      rw [Nat.digits_def' (by norm_num : (1 : Nat) < 10) hpos]
      simp

theorem natChars_eq_digits (n : Nat) (h : 0 < n) :
    natChars n = (Nat.digits 10 n).reverse.map fun d => Char.ofNat (48 + d) := by
  unfold natChars
  rw [natCharsAux_eq_digits (n + 1) n [] (by omega) h, List.append_nil]

theorem natChars_digits (n : Nat) : ∀ c ∈ natChars n, isDigitCh c = true := by
  intro c hc
  by_cases h : n = 0
  · subst h
    simp only [show natChars 0 = ['0'] from rfl, List.mem_singleton] at hc
    subst hc
    decide
  · rw [natChars_eq_digits n (by omega)] at hc
    simp only [List.mem_map, List.mem_reverse] at hc
    obtain ⟨d, hd, rfl⟩ := hc
    exact isDigitCh_digitCh d (Nat.digits_lt_base (by norm_num) hd)

theorem natChars_cons (n : Nat) : ∃ c t, natChars n = c :: t ∧ isDigitCh c = true := by
  by_cases h : n = 0
  · exact ⟨'0', [], by subst h; rfl, by decide⟩
  · match hrev : (Nat.digits 10 n).reverse with
    | [] =>
      exfalso
      have hne : Nat.digits 10 n ≠ [] := Nat.digits_ne_nil_iff_ne_zero.mpr h
      simp only [List.reverse_eq_nil_iff] at hrev
      exact hne hrev
    | d :: ds =>
      refine ⟨Char.ofNat (48 + d), ds.map fun d => Char.ofNat (48 + d), ?_, ?_⟩
      · rw [natChars_eq_digits n (by omega), hrev, List.map_cons]
      · have hd : d ∈ Nat.digits 10 n := by
          rw [← List.mem_reverse, hrev]; exact List.mem_cons_self _ _
        exact isDigitCh_digitCh d (Nat.digits_lt_base (by norm_num) hd)

theorem natCharsAux_head (fuel : Nat) : ∀ (n : Nat) (acc : List Char),
    n < fuel → 0 < n →
    ∃ c t, natCharsAux fuel n acc = c :: t ∧ c ≠ '0' := by
  induction fuel with
  | zero => intro n acc h; omega
  | succ f ih =>
    intro n acc hlt hpos
    rw [natCharsAux]
    by_cases h10 : n < 10
    · rw [if_pos h10]
      refine ⟨Char.ofNat (48 + n), acc, rfl, ?_⟩
      intro hEq
      have h1 : (Char.ofNat (48 + n)).toNat = 48 + n := toNat_digitCh n h10
      rw [hEq] at h1
      have h2 : (48 : Nat) = 48 + n := h1
      omega
    · rw [if_neg h10]
      exact ih (n / 10) _ (by omega) (by omega)

/-- A canonical decimal rendering never has a redundant leading zero. -/
theorem leadingZeroB_natChars (n : Nat) : leadingZeroB (natChars n) = false := by
  by_cases h : n = 0
  · subst h; rfl
  · obtain ⟨c, t, hct, hc0⟩ := natCharsAux_head (n + 1) n [] (by omega) (by omega)
    rw [natChars, hct]
    cases t with
    | nil => rfl
    | cons x xs =>
      simp only [leadingZeroB]
      exact beq_eq_false_iff_ne.mpr hc0

theorem digitRun_stop (rest : List Char) (h : numStop rest = true) :
    digitRun rest = ([], rest) := by
  cases rest with
  | nil => rfl
  | cons c t =>
    simp only [numStop, Bool.not_eq_true'] at h
    simp [digitRun, h]

theorem digitRun_digits (ds : List Char) (hds : ∀ c ∈ ds, isDigitCh c = true)
    (rest : List Char) (hrest : numStop rest = true) :
    digitRun (ds ++ rest) = (ds, rest) := by
  induction ds with
  | nil => simpa using digitRun_stop rest hrest
  | cons c t ih =>
    have hc : isDigitCh c = true := hds c (by simp)
    have ht := ih fun x hx => hds x (by simp [hx])
    simp [digitRun, hc, ht]

theorem digitsVal_append_digit (A : List Char) (c : Char) :
    digitsVal (A ++ [c]) = 10 * digitsVal A + (c.toNat - 48) := by
  simp [digitsVal, List.foldl_append]

theorem digitsVal_rev_map (l : List Nat) (h : ∀ d ∈ l, d < 10) :
    digitsVal (l.reverse.map fun d => Char.ofNat (48 + d)) = Nat.ofDigits 10 l := by
  induction l with
  | nil => simp [digitsVal, Nat.ofDigits_nil]
  | cons d ds ih =>
    have hd : d < 10 := h d (by simp)
    have hds := ih fun x hx => h x (by simp [hx])
    rw [List.reverse_cons, List.map_append, List.map_singleton, digitsVal_append_digit, hds,
      toNat_digitCh d hd, Nat.ofDigits_cons]
    omega

theorem digitsVal_natChars (n : Nat) : digitsVal (natChars n) = n := by
  by_cases h : n = 0
  · subst h; decide
  · rw [natChars_eq_digits n (by omega),
      digitsVal_rev_map _ (fun d hd => Nat.digits_lt_base (by norm_num) hd),
      Nat.ofDigits_digits]

theorem digit_not_minus {c : Char} (h : isDigitCh c = true) : c ≠ '-' := by
  intro hc
  subst hc
  exact absurd h (by decide)

theorem parseIntL_intChars (i : Int) (rest : List Char) (h : numStop rest = true) :
    parseIntL (intChars i ++ rest) = some (i, rest) := by
  have hrun := digitRun_digits (natChars i.natAbs) (natChars_digits _) rest h
  obtain ⟨c, t, hct, hcd⟩ := natChars_cons i.natAbs
  have hlz : ¬ leadingZeroB (c :: t) = true := by
    rw [← hct, leadingZeroB_natChars]
    exact Bool.false_ne_true
  by_cases hi : i < 0
  · have harg : intChars i ++ rest = '-' :: (natChars i.natAbs ++ rest) := by
      simp [intChars, hi]
    rw [harg]
    simp only [parseIntL]
    rw [hrun, hct]
    simp only []
    rw [if_neg hlz, ← hct, digitsVal_natChars]
    have : -((i.natAbs : Nat) : Int) = i := by omega
    rw [this]
  · have harg : intChars i ++ rest = natChars i.natAbs ++ rest := by
      simp [intChars, hi]
    rw [harg, hct, List.cons_append]
    have hnm : c ≠ '-' := digit_not_minus hcd
    have hstep : parseIntL (c :: (t ++ rest)) =
        (match digitRun (c :: (t ++ rest)) with
         | ([], _) => none
         | (ds, rest) =>
           if leadingZeroB ds then none else some ((digitsVal ds : Int), rest)) := by
      rw [parseIntL.eq_def]
      split
      · rename_i heq
        rw [List.cons_eq_cons] at heq
        exact absurd heq.1 hnm
      · rfl
    rw [hstep, ← List.cons_append, ← hct, hrun, hct]
    simp only []
    rw [if_neg hlz, ← hct, digitsVal_natChars]
    have : ((i.natAbs : Nat) : Int) = i := by omega
    rw [this]

/-! ### String round-trip -/

theorem hexChVal_hexCh (n : Nat) (h : n < 16) : hexChVal (hexCh n) = some n := by
  interval_cases n <;> decide
theorem parseStrBody_escapeCh (c : Char) (acc rest : List Char) :
    parseStrBody acc (escapeCh c ++ rest) = parseStrBody (c :: acc) rest := by
  by_cases h1 : c = '"'
  · subst h1
    rw [show escapeCh '"' ++ rest = '\\' :: '"' :: rest by simp [escapeCh]]
    rw [parseStrBody.eq_def]
    simp [unescapeCh]
  by_cases h2 : c = '\\'
  · subst h2
    rw [show escapeCh '\\' ++ rest = '\\' :: '\\' :: rest by simp [escapeCh]]
    rw [parseStrBody.eq_def]
    simp [unescapeCh]
  by_cases h3 : c.toNat = 8
  · have hc : c = Char.ofNat 8 := by rw [← h3, Char.ofNat_toNat]
    rw [show escapeCh c ++ rest = '\\' :: 'b' :: rest by simp [escapeCh, h1, h2, h3]]
    rw [parseStrBody.eq_def]
    simp [unescapeCh, hc]
  by_cases h4 : c = '\t'
  · subst h4
    rw [show escapeCh '\t' ++ rest = '\\' :: 't' :: rest by simp [escapeCh]]
    rw [parseStrBody.eq_def]
    simp [unescapeCh]
  by_cases h5 : c = '\n'
  · subst h5
    rw [show escapeCh '\n' ++ rest = '\\' :: 'n' :: rest by simp [escapeCh]]
    rw [parseStrBody.eq_def]
    simp [unescapeCh]
  by_cases h6 : c.toNat = 12
  · have hc : c = Char.ofNat 12 := by rw [← h6, Char.ofNat_toNat]
    rw [show escapeCh c ++ rest = '\\' :: 'f' :: rest by simp [escapeCh, h1, h2, h3, h4, h5, h6]]
    rw [parseStrBody.eq_def]
    simp [unescapeCh, hc]
  by_cases h7 : c = '\r'
  · subst h7
    rw [show escapeCh '\r' ++ rest = '\\' :: 'r' :: rest by simp [escapeCh]]
    rw [parseStrBody.eq_def]
    simp [unescapeCh]
  by_cases h8 : c.toNat < 32
  · rw [show escapeCh c ++ rest
        = '\\' :: 'u' :: '0' :: '0' :: hexCh (c.toNat / 16) :: hexCh (c.toNat % 16) :: rest by
      simp [escapeCh, h1, h2, h3, h4, h5, h6, h7, h8]]
    have hv1 : hexChVal (hexCh (c.toNat / 16)) = some (c.toNat / 16) :=
      hexChVal_hexCh _ (by omega)
    have hv2 : hexChVal (hexCh (c.toNat % 16)) = some (c.toNat % 16) :=
      hexChVal_hexCh _ (by omega)
    have hval : ((0 * 16 + 0) * 16 + c.toNat / 16) * 16 + c.toNat % 16 = c.toNat := by omega
    rw [parseStrBody.eq_def]
    simp only [show ('\\' : Char) ≠ '"' by decide, show ('\\' : Char) = '\\' from rfl,
      if_neg, if_pos, show ('u' : Char) = 'u' from rfl,
      show hexChVal '0' = some 0 by decide, hv1, hv2]
    rw [hval, Char.ofNat_toNat]
    simp only [if_false]
    rw [if_neg (by simp only [Bool.and_eq_true, decide_eq_true_eq, not_and]; omega)]
  · rw [show escapeCh c ++ rest = c :: rest by simp [escapeCh, h1, h2, h3, h4, h5, h6, h7, h8]]
    rw [parseStrBody.eq_def]
    simp [h1, h2, h8]

theorem parseStrBody_flat (cs : List Char) : ∀ (acc rest : List Char),
    parseStrBody acc (cs.flatMap escapeCh ++ '"' :: rest)
      = some (String.mk (acc.reverse ++ cs), rest) := by
  induction cs with
  | nil =>
    intro acc rest
    rw [List.flatMap_nil, List.nil_append, parseStrBody.eq_def]
    simp
  | cons c cs ih =>
    intro acc rest
    rw [List.flatMap_cons, List.append_assoc, parseStrBody_escapeCh, ih]
    simp

theorem parseStrBody_renderStr (s : String) (rest : List Char) :
    parseStrBody [] (s.data.flatMap escapeCh ++ '"' :: rest) = some (s, rest) := by
  rw [parseStrBody_flat]
  rfl

/-! ### Full parser round-trip -/

theorem ne_of_digit {c d : Char} (h : isDigitCh c = true) (hd : isDigitCh d = false) :
    c ≠ d := by
  intro he
  subst he
  rw [h] at hd
  exact Bool.noConfusion hd

theorem renderL_head (j : Json) : ∃ c t, Json.renderL j = c :: t ∧ c ≠ ']' := by
  cases j with
  | null => exact ⟨'n', _, rfl, by decide⟩
  | bool b => cases b with
    | true => exact ⟨'t', _, rfl, by decide⟩
    | false => exact ⟨'f', _, rfl, by decide⟩
  | str s => exact ⟨'"', _, rfl, by decide⟩
  | arr xs => cases xs with
    | nil => exact ⟨'[', _, rfl, by decide⟩
    | cons x xs => exact ⟨'[', _, rfl, by decide⟩
  | obj kvs => cases kvs with
    | nil => exact ⟨lbrace, _, rfl, by decide⟩
    | cons kv kvs => exact ⟨lbrace, _, rfl, by decide⟩
  | num i =>
    by_cases hi : i < 0
    · exact ⟨'-', natChars i.natAbs, by simp [Json.renderL, intChars, hi], by decide⟩
    · obtain ⟨c, t, hct, hcd⟩ := natChars_cons i.natAbs
      exact ⟨c, t, by simp [Json.renderL, intChars, hi, hct],
        ne_of_digit hcd (by decide)⟩

theorem parseJsonVal_digitHead (fuel : Nat) (c : Char) (r : List Char)
    (hcd : isDigitCh c = true) :
    parseJsonVal (fuel + 1) (c :: r) =
      (parseIntL (c :: r)).map fun p => (Json.num p.1, p.2) := by
  have hn : c ≠ 'n' := ne_of_digit hcd (by decide)
  have ht : c ≠ 't' := ne_of_digit hcd (by decide)
  have hf : c ≠ 'f' := ne_of_digit hcd (by decide)
  have hq : c ≠ '"' := ne_of_digit hcd (by decide)
  have hk : c ≠ '[' := ne_of_digit hcd (by decide)
  have hb : c ≠ lbrace := ne_of_digit hcd (by decide)
  rw [parseJsonVal.eq_def]
  simp [hn, ht, hf, hq, hk, hb, hcd]

theorem parseJsonVal_minusHead (fuel : Nat) (r : List Char) :
    parseJsonVal (fuel + 1) ('-' :: r) =
      (parseIntL ('-' :: r)).map fun p => (Json.num p.1, p.2) := by
  rw [parseJsonVal.eq_def]
  simp [show ¬('-' = lbrace) by decide]

theorem parseJsonVal_num (fuel : Nat) (i : Int) (rest : List Char) (h : numStop rest = true) :
    parseJsonVal (fuel + 1) (intChars i ++ rest) = some (.num i, rest) := by
  by_cases hi : i < 0
  · have harg : intChars i ++ rest = '-' :: (natChars i.natAbs ++ rest) := by
      simp [intChars, hi]
    rw [harg, parseJsonVal_minusHead, ← harg, parseIntL_intChars i rest h]
    rfl
  · obtain ⟨c, t, hct, hcd⟩ := natChars_cons i.natAbs
    have harg : intChars i ++ rest = c :: (t ++ rest) := by simp [intChars, hi, hct]
    rw [harg, parseJsonVal_digitHead fuel c _ hcd, ← harg, parseIntL_intChars i rest h]
    rfl

theorem parseJsonVal_str (fuel : Nat) (s : String) (rest : List Char) :
    parseJsonVal (fuel + 1) (renderStrL s ++ rest) = some (.str s, rest) := by
  rw [show renderStrL s ++ rest = '"' :: (s.data.flatMap escapeCh ++ ('"' :: rest)) by
    simp [renderStrL]]
  rw [parseJsonVal.eq_def]
  simp [parseStrBody_renderStr]

theorem renderL_len_pos (j : Json) : 0 < (Json.renderL j).length := by
  obtain ⟨c, t, hct, _⟩ := renderL_head j
  rw [hct]
  simp

theorem arrTail_len_pos (xs : List Json) : 0 < (Json.renderArrTailL xs).length := by
  cases xs <;> simp [Json.renderArrTailL]

theorem objTail_len_pos (kvs : List (String × Json)) : 0 < (Json.renderObjTailL kvs).length := by
  cases kvs <;> simp [Json.renderObjTailL]

theorem renderStrL_len (s : String) : 2 ≤ (renderStrL s).length := by
  simp [renderStrL]

theorem numStop_arrTail (xs : List Json) (rest : List Char) :
    numStop (Json.renderArrTailL xs ++ rest) = true := by
  cases xs <;> rfl

theorem numStop_objTail (kvs : List (String × Json)) (rest : List Char) :
    numStop (Json.renderObjTailL kvs ++ rest) = true := by
  cases kvs <;> rfl

mutual
theorem rt_val : ∀ (j : Json) (fuel : Nat) (rest : List Char),
    Json.wfB j = true → (Json.renderL j).length < fuel → numStop rest = true →
    parseJsonVal fuel (Json.renderL j ++ rest) = some (j, rest)
  | j, 0, _, _, hf, _ => absurd hf (Nat.not_lt_zero _)
  | .null, fuel + 1, rest, _, _, _ => by
    rw [show Json.renderL .null ++ rest = 'n' :: 'u' :: 'l' :: 'l' :: rest from rfl]
    rw [parseJsonVal.eq_def]
    simp
  | .bool true, fuel + 1, rest, _, _, _ => by
    rw [show Json.renderL (.bool true) ++ rest = 't' :: 'r' :: 'u' :: 'e' :: rest from rfl]
    rw [parseJsonVal.eq_def]
    simp
  | .bool false, fuel + 1, rest, _, _, _ => by
    rw [show Json.renderL (.bool false) ++ rest = 'f' :: 'a' :: 'l' :: 's' :: 'e' :: rest from rfl]
    rw [parseJsonVal.eq_def]
    simp
  | .num i, fuel + 1, rest, _, _, hrest => by
    rw [show Json.renderL (.num i) = intChars i from rfl]
    exact parseJsonVal_num fuel i rest hrest
  | .str s, fuel + 1, rest, _, _, _ => by
    rw [show Json.renderL (.str s) = renderStrL s from rfl]
    exact parseJsonVal_str fuel s rest
  | .arr [], fuel + 1, rest, _, _, _ => by
    rw [show Json.renderL (.arr []) ++ rest = '[' :: ']' :: rest from rfl]
    rw [parseJsonVal.eq_def]
    simp
  | .arr (x :: xs), fuel + 1, rest, hw, hf, _ => by
    have hwx : Json.wfB x = true ∧ Json.wfArrB xs = true := by
      simpa [Json.wfB, Json.wfArrB, Bool.and_eq_true] using hw
    obtain ⟨c, t, hct, hcne⟩ := renderL_head x
    have harg : Json.renderL (.arr (x :: xs)) ++ rest
        = '[' :: (c :: (t ++ (Json.renderArrTailL xs ++ rest))) := by
      simp [Json.renderL, hct]
    rw [harg, parseJsonVal.eq_def]
    simp only [show ∀ t', ¬('[' :: t' = 'n' :: 'u' :: 'l' :: 'l' :: t') from by simp]
    have hlen : (Json.renderL x).length + (Json.renderArrTailL xs).length < fuel := by
      have h1 := arrTail_len_pos xs
      simp only [Json.renderL, List.length_cons, List.length_append] at hf
      omega
    have hitems := rt_items x xs fuel rest hwx.1 hwx.2 hlen
    rw [hct] at hitems
    simp only [List.cons_append, List.append_assoc] at hitems
    simp [hcne, hitems]
  | .obj [], fuel + 1, rest, _, _, _ => by
    rw [show Json.renderL (.obj []) ++ rest = lbrace :: rbrace :: rest from rfl]
    rw [parseJsonVal.eq_def]
    simp [lbrace, rbrace]
  | .obj ((k, v) :: kvs), fuel + 1, rest, hw, hf, _ => by
    have hw' : nodupKeysB ((k, v) :: kvs) = true ∧ Json.wfObjB ((k, v) :: kvs) = true := by
      simpa [Json.wfB, Bool.and_eq_true] using hw
    have harg : Json.renderL (.obj ((k, v) :: kvs)) ++ rest
        = lbrace :: ('"' :: ((k.data.flatMap escapeCh ++ ['"'])
            ++ (':' :: Json.renderL v ++ (Json.renderObjTailL kvs ++ rest)))) := by
      simp [Json.renderL, Json.renderMemberL, renderStrL]
    have hlen : (Json.renderMemberL (k, v)).length + (Json.renderObjTailL kvs).length < fuel := by
      simp only [Json.renderL, List.length_cons, List.length_append] at hf
      omega
    have hmem := rt_members (k, v) kvs fuel rest hw'.2 hlen
    simp only [Json.renderMemberL, renderStrL, List.cons_append, List.append_assoc,
      List.singleton_append, List.nil_append] at hmem
    rw [harg, parseJsonVal.eq_def]
    simp [lbrace, rbrace, hmem, hw'.1]
termination_by j _ _ _ _ _ => sizeOf j

theorem rt_items : ∀ (x : Json) (xs : List Json) (fuel : Nat) (rest : List Char),
    Json.wfB x = true → Json.wfArrB xs = true →
    (Json.renderL x).length + (Json.renderArrTailL xs).length < fuel →
    parseArrItems fuel (Json.renderL x ++ (Json.renderArrTailL xs ++ rest))
      = some (x :: xs, rest)
  | _, _, 0, _, _, _, hf => absurd hf (Nat.not_lt_zero _)
  | x, [], fuel + 1, rest, hwx, _, hf => by
    have hx := rt_val x fuel (']' :: rest) hwx
      (by simp only [Json.renderArrTailL, List.length_singleton] at hf; omega) rfl
    rw [parseArrItems.eq_def]
    simp [Json.renderArrTailL, hx]
  | x, y :: ys, fuel + 1, rest, hwx, hwxs, hf => by
    have hwy : Json.wfB y = true ∧ Json.wfArrB ys = true := by
      simpa [Json.wfArrB, Bool.and_eq_true] using hwxs
    have hx := rt_val x fuel (',' :: (Json.renderL y ++ (Json.renderArrTailL ys ++ rest))) hwx
      (by have := arrTail_len_pos (y :: ys); omega) rfl
    have hlen : (Json.renderL y).length + (Json.renderArrTailL ys).length < fuel := by
      have h1 := renderL_len_pos x
      simp only [Json.renderArrTailL, List.length_cons, List.length_append] at hf
      omega
    have hrec := rt_items y ys fuel rest hwy.1 hwy.2 hlen
    rw [parseArrItems.eq_def]
    simp only [Json.renderArrTailL, List.cons_append, List.append_assoc]
    simp [hx, hrec]
termination_by x xs _ _ _ _ _ => sizeOf x + sizeOf xs

theorem rt_members : ∀ (kv : String × Json) (kvs : List (String × Json))
    (fuel : Nat) (rest : List Char),
    Json.wfObjB (kv :: kvs) = true →
    (Json.renderMemberL kv).length + (Json.renderObjTailL kvs).length < fuel →
    parseObjMembers fuel (Json.renderMemberL kv ++ (Json.renderObjTailL kvs ++ rest))
      = some (kv :: kvs, rest)
  | _, _, 0, _, _, hf => absurd hf (Nat.not_lt_zero _)
  | (k, v), [], fuel + 1, rest, hw, hf => by
    have hwv : Json.wfB v = true := by
      simpa [Json.wfObjB, Bool.and_eq_true] using hw
    have hlenv : (Json.renderL v).length < fuel := by
      have h1 := renderStrL_len k
      simp only [Json.renderMemberL, Json.renderObjTailL, List.length_append,
        List.length_cons, List.length_singleton] at hf
      omega
    have hv := rt_val v fuel (rbrace :: rest) hwv hlenv rfl
    have harg : Json.renderMemberL (k, v) ++ (Json.renderObjTailL [] ++ rest)
        = '"' :: (k.data.flatMap escapeCh ++ ('"' :: (':' ::
            (Json.renderL v ++ (rbrace :: rest))))) := by
      simp [Json.renderMemberL, Json.renderObjTailL, renderStrL]
    rw [harg, parseObjMembers.eq_def]
    simp only [rbrace] at hv
    simp [parseStrBody_renderStr, hv, rbrace]
  | (k, v), (k2, v2) :: kvs2, fuel + 1, rest, hw, hf => by
    have hwv : Json.wfB v = true ∧ Json.wfObjB ((k2, v2) :: kvs2) = true := by
      simpa [Json.wfObjB, Bool.and_eq_true] using hw
    have hlenv : (Json.renderL v).length < fuel := by
      have h1 := renderStrL_len k
      have h2 := objTail_len_pos ((k2, v2) :: kvs2)
      simp only [Json.renderMemberL, List.length_append, List.length_cons] at hf
      omega
    have hv := rt_val v fuel (',' :: (Json.renderMemberL (k2, v2)
        ++ (Json.renderObjTailL kvs2 ++ rest))) hwv.1 hlenv rfl
    have hlen2 : (Json.renderMemberL (k2, v2)).length
        + (Json.renderObjTailL kvs2).length < fuel := by
      have h1 := renderStrL_len k
      have h2 := renderL_len_pos v
      simp only [Json.renderMemberL, Json.renderObjTailL, List.length_append,
        List.length_cons] at hf ⊢
      omega
    have hrec := rt_members (k2, v2) kvs2 fuel rest hwv.2 hlen2
    have harg : Json.renderMemberL (k, v) ++ (Json.renderObjTailL ((k2, v2) :: kvs2) ++ rest)
        = '"' :: (k.data.flatMap escapeCh ++ ('"' :: (':' ::
            (Json.renderL v ++ (',' :: (Json.renderMemberL (k2, v2)
              ++ (Json.renderObjTailL kvs2 ++ rest))))))) := by
      simp [Json.renderMemberL, Json.renderObjTailL, renderStrL]
    rw [harg, parseObjMembers.eq_def]
    simp [parseStrBody_renderStr, hv, hrec]
termination_by kv kvs _ _ _ _ => sizeOf kv + sizeOf kvs
end

/-- Parsing inverts rendering for every well-formed JSON value. -/
theorem Json.parse_render (j : Json) (h : Json.wfB j = true) :
    Json.parse (Json.render j) = some j := by
  have hdata : (Json.render j).data = Json.renderL j := rfl
  unfold Json.parse
  rw [hdata]
  have hv := rt_val j ((Json.renderL j).length + 1) [] h (by omega) rfl
  rw [List.append_nil] at hv
  rw [hv]

/-! ### The Singer message model (`singer_rust/src/message/types.rs`)

`Message` mirrors the Rust enum field-for-field (declaration order matters:
serde serializes an internally tagged variant as an object with the `type`
tag first, then the fields in declaration order).  `u64` fields become
`Nat`; a constructible Rust value has `version < 2^64`, recorded by
`Message.wfB`. -/

/-- The `BatchEncoding` struct: encoding format and compression of a batch. -/
structure BatchEncoding where
  format : String
  compression : String
deriving Repr, DecidableEq

/-- A Singer message: the five protocol variants, tagged on the wire by the
`type` field. -/
inductive Message where
  | ACTIVATE_VERSION (stream : String) (version : Nat)
  | BATCH (stream : String) (manifest : List String) (encoding : BatchEncoding)
  | RECORD (stream : String) (record : Json) (time_extracted : Option String) (version : Nat)
  | SCHEMA (stream : String) (schema : Json) (key_properties : List String)
      (bookmark_properties : List String)
  | STATE (value : Json)
deriving Repr

/-- First-match association-list lookup among an object's members. -/
def lookupKey : List (String × Json) → String → Option Json
  | [], _ => none
  | (k, v) :: kvs, key => if k = key then some v else lookupKey kvs key

/-- A JSON string payload, or a decode failure. -/
def asString : Json → Option String
  | .str s => some s
  | _ => none

/-- A JSON `u64` payload: a non-negative number below `2^64`, or a decode
failure (`serde_json` rejects negative and out-of-range numbers for a
`u64` field). -/
def getU64 : Json → Option Nat
  | .num n =>
    if 0 ≤ n ∧ n.toNat < 18446744073709551616 then some n.toNat else none
  | _ => none

/-- A JSON array-of-strings payload (`Vec<String>`), or a decode failure. -/
def asStringList : Json → Option (List String)
  | .arr xs => xs.mapM asString
  | _ => none

/-- An `Option<String>` field: missing or `null` decodes to `None`, a
string to `Some`, anything else is a decode failure. -/
def optStrField : Option Json → Option (Option String)
  | none => some none
  | some .null => some none
  | some (.str s) => some (some s)
  | some _ => none

/-- A `#[serde(default)]` `u64` field: missing decodes to `0`. -/
def u64FieldDefault : Option Json → Option Nat
  | none => some 0
  | some v => getU64 v

/-- A `#[serde(default)]` `Vec<String>` field: missing decodes to `[]`. -/
def strListFieldDefault : Option Json → Option (List String)
  | none => some []
  | some v => asStringList v

/-- Deserialize a `BatchEncoding`: an object with required string fields
`format` and `compression`; unknown keys are ignored, as serde does. -/
def BatchEncoding.fromJson : Json → Option BatchEncoding
  | .obj kvs => do
    let f ← lookupKey kvs "format" >>= asString
    let c ← lookupKey kvs "compression" >>= asString
    some ⟨f, c⟩
  | _ => none

/-- Serialize a `BatchEncoding` as serde does: fields in declaration order. -/
def BatchEncoding.toJson (e : BatchEncoding) : Json :=
  .obj [("format", .str e.format), ("compression", .str e.compression)]

/-- Serialize a message as serde's derived `Serialize` does for the
internally tagged enum: an object holding the `type` tag and then the
variant's fields in declaration order; `None` becomes `null`. -/
def Message.toJson : Message → Json
  | .ACTIVATE_VERSION stream version =>
    .obj [("type", .str "ACTIVATE_VERSION"), ("stream", .str stream),
      ("version", .num version)]
  | .BATCH stream manifest encoding =>
    .obj [("type", .str "BATCH"), ("stream", .str stream),
      ("manifest", .arr (manifest.map .str)), ("encoding", encoding.toJson)]
  | .RECORD stream record time_extracted version =>
    .obj [("type", .str "RECORD"), ("stream", .str stream), ("record", record),
      ("time_extracted", match time_extracted with | none => .null | some s => .str s),
      ("version", .num version)]
  | .SCHEMA stream schema key_properties bookmark_properties =>
    .obj [("type", .str "SCHEMA"), ("stream", .str stream), ("schema", schema),
      ("key_properties", .arr (key_properties.map .str)),
      ("bookmark_properties", .arr (bookmark_properties.map .str))]
  | .STATE value => .obj [("type", .str "STATE"), ("value", value)]

/-- Deserialize a message as serde's derived `Deserialize` does: find the
`type` tag, then read the resolved variant's fields; `key_properties`,
`bookmark_properties` and `version` default when missing, `time_extracted`
is optional, unknown keys are ignored. -/
def Message.fromJson : Json → Option Message
  | .obj kvs =>
    match lookupKey kvs "type" with
    | some (.str "ACTIVATE_VERSION") => do
      let stream ← lookupKey kvs "stream" >>= asString
      let version ← lookupKey kvs "version" >>= getU64
      some (.ACTIVATE_VERSION stream version)
    | some (.str "BATCH") => do
      let stream ← lookupKey kvs "stream" >>= asString
      let manifest ← lookupKey kvs "manifest" >>= asStringList
      let encoding ← lookupKey kvs "encoding" >>= BatchEncoding.fromJson
      some (.BATCH stream manifest encoding)
    | some (.str "RECORD") => do
      let stream ← lookupKey kvs "stream" >>= asString
      let record ← lookupKey kvs "record"
      let time_extracted ← optStrField (lookupKey kvs "time_extracted")
      let version ← u64FieldDefault (lookupKey kvs "version")
      some (.RECORD stream record time_extracted version)
    | some (.str "SCHEMA") => do
      let stream ← lookupKey kvs "stream" >>= asString
      let schema ← lookupKey kvs "schema"
      let key_properties ← strListFieldDefault (lookupKey kvs "key_properties")
      let bookmark_properties ← strListFieldDefault (lookupKey kvs "bookmark_properties")
      some (.SCHEMA stream schema key_properties bookmark_properties)
    | some (.str "STATE") => do
      let value ← lookupKey kvs "value"
      some (.STATE value)
    | _ => none
  | _ => none

/-- `Message::to_string`: serialize to one compact JSON line (via serde). -/
def Message.to_string (m : Message) : String := m.toJson.render

/-- `Message::from_string`: parse a JSON line and decode it into a message
(via serde); `none` models `Err(serde_json::Error)`. -/
def Message.from_string (s : String) : Option Message :=
  (Json.parse s).bind Message.fromJson

/-- A constructible Rust message: its JSON payloads are maps with
duplicate-free keys, as `serde_json::Value` (a `BTreeMap` at every object
node) guarantees for every value the source can build, and its `version`
fields fit in a `u64` (their Rust type). -/
def Message.wfB : Message → Bool
  | .ACTIVATE_VERSION _ version => decide (version < 18446744073709551616)
  | .BATCH _ _ _ => true
  | .RECORD _ record _ version =>
    record.wfB && decide (version < 18446744073709551616)
  | .SCHEMA _ schema _ _ => schema.wfB
  | .STATE value => value.wfB

/-! ### Encode/decode round-trip for messages -/

theorem getU64_natCast (n : Nat) (h : n < 18446744073709551616) :
    getU64 (Json.num n) = some n := by
  simp only [getU64]
  rw [if_pos ⟨Int.natCast_nonneg n, by simpa using h⟩, Int.toNat_natCast]

theorem asStringList_map_str (l : List String) :
    asStringList (.arr (l.map .str)) = some l := by
  induction l with
  | nil => rfl
  | cons s t ih =>
    show (List.map Json.str (s :: t)).mapM asString = some (s :: t)
    rw [List.map_cons, List.mapM_cons]
    have ih2 : List.mapM.loop asString (List.map Json.str t) [] = some t := ih
    simp [asString, ih2]

theorem wfArrB_map_str (l : List String) : Json.wfArrB (l.map .str) = true := by
  induction l with
  | nil => rfl
  | cons s t ih => simp [Json.wfArrB, Json.wfB, ih]

/-- Serializing a constructible message yields a well-formed JSON value. -/
theorem Message.toJson_wfB (m : Message) (h : m.wfB = true) :
    (Message.toJson m).wfB = true := by
  cases m with
  | ACTIVATE_VERSION stream version =>
    rfl
  | BATCH stream manifest encoding =>
    simp only [Message.toJson, Json.wfB, Bool.and_eq_true]
    exact ⟨rfl, by simp [Json.wfObjB, Json.wfB, BatchEncoding.toJson, nodupKeysB,
      wfArrB_map_str, Json.wfArrB]⟩
  | RECORD stream record time_extracted version =>
    have hrec : record.wfB = true := by
      simp only [Message.wfB, Bool.and_eq_true] at h
      exact h.1
    simp only [Message.toJson, Json.wfB, Bool.and_eq_true]
    refine ⟨rfl, ?_⟩
    simp only [Json.wfObjB, Json.wfB, Bool.and_eq_true, hrec]
    cases time_extracted <;> simp [Json.wfB, Json.wfObjB]
  | SCHEMA stream schema key_properties bookmark_properties =>
    have hs : schema.wfB = true := by simpa [Message.wfB] using h
    simp only [Message.toJson, Json.wfB, Bool.and_eq_true]
    exact ⟨rfl, by simp [Json.wfObjB, Json.wfB, hs, wfArrB_map_str]⟩
  | STATE value =>
    have hv : value.wfB = true := by simpa [Message.wfB] using h
    simp only [Message.toJson, Json.wfB, Bool.and_eq_true]
    exact ⟨rfl, by simp [Json.wfObjB, Json.wfB, hv]⟩

/-- Decoding inverts encoding at the JSON level, for every constructible
message. -/
theorem Message.fromJson_toJson (m : Message) (h : m.wfB = true) :
    Message.fromJson (Message.toJson m) = some m := by
  cases m with
  | ACTIVATE_VERSION stream version =>
    have hv : version < 18446744073709551616 := by
      simp only [Message.wfB] at h
      exact of_decide_eq_true h
    have h0 : lookupKey [("type", Json.str "ACTIVATE_VERSION"), ("stream", Json.str stream),
        ("version", Json.num version)] "type" = some (Json.str "ACTIVATE_VERSION") := rfl
    have h1 : lookupKey [("type", Json.str "ACTIVATE_VERSION"), ("stream", Json.str stream),
        ("version", Json.num version)] "stream" = some (Json.str stream) := rfl
    have h2 : lookupKey [("type", Json.str "ACTIVATE_VERSION"), ("stream", Json.str stream),
        ("version", Json.num version)] "version" = some (Json.num version) := rfl
    simp only [Message.toJson, Message.fromJson, h0, h1, h2]
    simp [asString]
    rw [getU64_natCast version hv]
    rfl
  | BATCH stream manifest encoding =>
    have h0 : lookupKey [("type", Json.str "BATCH"), ("stream", Json.str stream),
        ("manifest", Json.arr (manifest.map .str)), ("encoding", encoding.toJson)] "type"
        = some (Json.str "BATCH") := rfl
    have h1 : lookupKey [("type", Json.str "BATCH"), ("stream", Json.str stream),
        ("manifest", Json.arr (manifest.map .str)), ("encoding", encoding.toJson)] "stream"
        = some (Json.str stream) := rfl
    have h2 : lookupKey [("type", Json.str "BATCH"), ("stream", Json.str stream),
        ("manifest", Json.arr (manifest.map .str)), ("encoding", encoding.toJson)] "manifest"
        = some (Json.arr (manifest.map .str)) := rfl
    have h3 : lookupKey [("type", Json.str "BATCH"), ("stream", Json.str stream),
        ("manifest", Json.arr (manifest.map .str)), ("encoding", encoding.toJson)] "encoding"
        = some encoding.toJson := rfl
    have h4 : BatchEncoding.fromJson encoding.toJson = some encoding := rfl
    simp only [Message.toJson, Message.fromJson, h0, h1, h2, h3]
    simp [asString, asStringList_map_str]
    rw [h4]
    rfl
  | RECORD stream record time_extracted version =>
    have h0 : ∀ te, lookupKey [("type", Json.str "RECORD"), ("stream", Json.str stream),
        ("record", record), ("time_extracted", te), ("version", Json.num version)] "type"
        = some (Json.str "RECORD") := fun _ => rfl
    have h1 : ∀ te, lookupKey [("type", Json.str "RECORD"), ("stream", Json.str stream),
        ("record", record), ("time_extracted", te), ("version", Json.num version)] "stream"
        = some (Json.str stream) := fun _ => rfl
    have h2 : ∀ te, lookupKey [("type", Json.str "RECORD"), ("stream", Json.str stream),
        ("record", record), ("time_extracted", te), ("version", Json.num version)] "record"
        = some record := fun _ => rfl
    have h3 : ∀ te, lookupKey [("type", Json.str "RECORD"), ("stream", Json.str stream),
        ("record", record), ("time_extracted", te), ("version", Json.num version)]
        "time_extracted" = some te := fun _ => rfl
    have h4 : ∀ te, lookupKey [("type", Json.str "RECORD"), ("stream", Json.str stream),
        ("record", record), ("time_extracted", te), ("version", Json.num version)] "version"
        = some (Json.num version) := fun _ => rfl
    have hv : version < 18446744073709551616 := by
      simp only [Message.wfB, Bool.and_eq_true, decide_eq_true_eq] at h
      exact h.2
    have h5 : u64FieldDefault (some (Json.num version)) = some version := by
      simp [u64FieldDefault, getU64_natCast version hv]
    cases time_extracted with
    | none =>
      simp only [Message.toJson, Message.fromJson, h0 .null, h1 .null, h2 .null,
        h3 .null, h4 .null, h5, optStrField]
      simp [asString]
    | some s =>
      simp only [Message.toJson, Message.fromJson, h0 (.str s), h1 (.str s), h2 (.str s),
        h3 (.str s), h4 (.str s), h5, optStrField]
      simp [asString]
  | SCHEMA stream schema key_properties bookmark_properties =>
    have h0 : lookupKey [("type", Json.str "SCHEMA"), ("stream", Json.str stream),
        ("schema", schema), ("key_properties", Json.arr (key_properties.map .str)),
        ("bookmark_properties", Json.arr (bookmark_properties.map .str))] "type"
        = some (Json.str "SCHEMA") := rfl
    have h1 : lookupKey [("type", Json.str "SCHEMA"), ("stream", Json.str stream),
        ("schema", schema), ("key_properties", Json.arr (key_properties.map .str)),
        ("bookmark_properties", Json.arr (bookmark_properties.map .str))] "stream"
        = some (Json.str stream) := rfl
    have h2 : lookupKey [("type", Json.str "SCHEMA"), ("stream", Json.str stream),
        ("schema", schema), ("key_properties", Json.arr (key_properties.map .str)),
        ("bookmark_properties", Json.arr (bookmark_properties.map .str))] "schema"
        = some schema := rfl
    have h3 : lookupKey [("type", Json.str "SCHEMA"), ("stream", Json.str stream),
        ("schema", schema), ("key_properties", Json.arr (key_properties.map .str)),
        ("bookmark_properties", Json.arr (bookmark_properties.map .str))] "key_properties"
        = some (Json.arr (key_properties.map .str)) := rfl
    have h4 : lookupKey [("type", Json.str "SCHEMA"), ("stream", Json.str stream),
        ("schema", schema), ("key_properties", Json.arr (key_properties.map .str)),
        ("bookmark_properties", Json.arr (bookmark_properties.map .str))]
        "bookmark_properties" = some (Json.arr (bookmark_properties.map .str)) := rfl
    simp only [Message.toJson, Message.fromJson, h0, h1, h2, h3, h4]
    simp [asString, strListFieldDefault, asStringList_map_str]
  | STATE value =>
    have h0 : lookupKey [("type", Json.str "STATE"), ("value", value)] "type"
        = some (Json.str "STATE") := rfl
    have h1 : lookupKey [("type", Json.str "STATE"), ("value", value)] "value"
        = some value := rfl
    simp only [Message.toJson, Message.fromJson, h0, h1]
    rfl

/-- C1: for every constructible Message value `m` (any of the five variants
with any field values; payload objects are maps, as every value the source
can build through `serde_json::Value` is), decoding the string produced by
encoding `m` yields exactly `m`:
`Message::from_string(Message::to_string(m)) == Ok(m)`. -/
theorem C1_decode_encode_roundtrip (m : Message) (h : m.wfB = true) :
    Message.from_string (Message.to_string m) = some m := by
  unfold Message.from_string Message.to_string
  rw [Json.parse_render _ (Message.toJson_wfB m h)]
  exact Message.fromJson_toJson m h

/-- Witness for C1 at the `RECORD` message from the crate's doctest. -/
theorem C1_decode_encode_roundtrip_witness :
    Message.wfB (.RECORD "my_stream" (.obj [("id", .num 1), ("name", .str "John")]) none 1)
        = true
    ∧ Message.from_string (Message.to_string
        (.RECORD "my_stream" (.obj [("id", .num 1), ("name", .str "John")]) none 1))
      = some (.RECORD "my_stream" (.obj [("id", .num 1), ("name", .str "John")]) none 1) :=
  ⟨rfl, C1_decode_encode_roundtrip _ rfl⟩

/-! ### C8: when decoding fails

Spec-side predicates, following the claim's wording: the tag is missing or
unknown, or a required field of the resolved variant is missing or has the
wrong JSON type, or the line is not valid JSON (`Json.parse` fails). -/

/-- The five known wire tags. -/
def knownTags : List String :=
  ["ACTIVATE_VERSION", "BATCH", "RECORD", "SCHEMA", "STATE"]

/-- The `type` tag is missing (also when the document is not an object) or
is not one of the five known tags. -/
def tagBadB (j : Json) : Bool :=
  match j with
  | .obj kvs =>
    match lookupKey kvs "type" with
    | some (.str t) => !(knownTags.contains t)
    | some _ => true
    | none => true
  | _ => true

/-- Is a looked-up field present with a string value? -/
def strOkB : Option Json → Bool
  | some (.str _) => true
  | _ => false

/-- Is a looked-up field present with a `u64` value (a non-negative
number below `2^64`)? -/
def u64OkB : Option Json → Bool
  | some (.num n) => 0 ≤ n ∧ n.toNat < 18446744073709551616
  | _ => false

/-- Is a JSON value a string? -/
def isStrJ : Json → Bool
  | .str _ => true
  | _ => false

/-- Is a looked-up field present with an array-of-strings value? -/
def strListOkB : Option Json → Bool
  | some (.arr xs) => xs.all isStrJ
  | _ => false

/-- A `#[serde(default)]` list field: absent, or an array of strings. -/
def strListDefaultOkB : Option Json → Bool
  | none => true
  | some v => strListOkB (some v)

/-- A `#[serde(default)]` `u64` field: absent, or a `u64`. -/
def u64DefaultOkB : Option Json → Bool
  | none => true
  | some v => u64OkB (some v)

/-- An `Option<String>` field: absent, null, or a string. -/
def optStrOkB : Option Json → Bool
  | none => true
  | some .null => true
  | some (.str _) => true
  | some _ => false

/-- A `BatchEncoding` field: an object with string `format`/`compression`. -/
def encodingOkB : Option Json → Bool
  | some (.obj kvs) =>
    strOkB (lookupKey kvs "format") && strOkB (lookupKey kvs "compression")
  | _ => false

/-- All the resolved variant's required fields are present with the right
JSON types (with serde's defaults for the optional ones). -/
def requiredFieldsOkB (t : String) (kvs : List (String × Json)) : Bool :=
  if t = "ACTIVATE_VERSION" then
    strOkB (lookupKey kvs "stream") && u64OkB (lookupKey kvs "version")
  else if t = "BATCH" then
    strOkB (lookupKey kvs "stream") && strListOkB (lookupKey kvs "manifest")
      && encodingOkB (lookupKey kvs "encoding")
  else if t = "RECORD" then
    strOkB (lookupKey kvs "stream") && (lookupKey kvs "record").isSome
      && optStrOkB (lookupKey kvs "time_extracted")
      && u64DefaultOkB (lookupKey kvs "version")
  else if t = "SCHEMA" then
    strOkB (lookupKey kvs "stream") && (lookupKey kvs "schema").isSome
      && strListDefaultOkB (lookupKey kvs "key_properties")
      && strListDefaultOkB (lookupKey kvs "bookmark_properties")
  else if t = "STATE" then
    (lookupKey kvs "value").isSome
  else false

/-- Some required field of the resolved variant is missing or wrongly
typed (only meaningful when the tag resolved to a known variant). -/
def fieldsBadB (j : Json) : Bool :=
  match j with
  | .obj kvs =>
    match lookupKey kvs "type" with
    | some (.str t) => knownTags.contains t && !(requiredFieldsOkB t kvs)
    | _ => false
  | _ => false

theorem strBind_isSome (o : Option Json) : (o >>= asString).isSome = strOkB o := by
  cases o with
  | none => rfl
  | some j => cases j <;> rfl

theorem u64Bind_isSome (o : Option Json) : (o >>= getU64).isSome = u64OkB o := by
  cases o with
  | none => rfl
  | some j =>
    cases j with
    | num n =>
      by_cases h : 0 ≤ n ∧ n.toNat < 18446744073709551616
      · simp [getU64, u64OkB, h]
      · simp [getU64, u64OkB, h]
    | null => rfl
    | bool b => rfl
    | str s => rfl
    | arr xs => rfl
    | obj kvs => rfl

theorem mapM_asString_isSome (xs : List Json) :
    (xs.mapM asString).isSome = xs.all isStrJ := by
  induction xs with
  | nil => rfl
  | cons x t ih =>
    rw [List.mapM_cons]
    have ih' : (List.mapM.loop asString t []).isSome = t.all isStrJ := ih
    cases x with
    | str s =>
      cases h : List.mapM.loop asString t [] with
      | none => simp [asString, isStrJ, List.all_cons, h, ← ih']
      | some l => simp [asString, isStrJ, List.all_cons, h, ← ih']
    | null => simp [asString, isStrJ, List.all_cons]
    | bool b => simp [asString, isStrJ, List.all_cons]
    | num n => simp [asString, isStrJ, List.all_cons]
    | arr ys => simp [asString, isStrJ, List.all_cons]
    | obj kvs => simp [asString, isStrJ, List.all_cons]

theorem strListBind_isSome (o : Option Json) :
    (o >>= asStringList).isSome = strListOkB o := by
  cases o with
  | none => rfl
  | some j =>
    cases j with
    | arr xs =>
      exact mapM_asString_isSome xs
    | null => rfl
    | bool b => rfl
    | num n => rfl
    | str s => rfl
    | obj kvs => rfl

theorem encBind_isSome (o : Option Json) :
    (o >>= BatchEncoding.fromJson).isSome = encodingOkB o := by
  cases o with
  | none => rfl
  | some j =>
    cases j with
    | obj kvs =>
      cases hf : lookupKey kvs "format" with
      | none => simp [BatchEncoding.fromJson, encodingOkB, hf, asString, strOkB]
      | some v =>
        cases hc : lookupKey kvs "compression" with
        | none =>
          cases v <;>
            simp [BatchEncoding.fromJson, encodingOkB, hf, hc, asString, strOkB]
        | some w =>
          cases v <;> cases w <;>
            simp [BatchEncoding.fromJson, encodingOkB, hf, hc, asString, strOkB]
    | null => rfl
    | bool b => rfl
    | num n => rfl
    | str s => rfl
    | arr xs => rfl

theorem eq_none_iff_isSome_false {α : Type} (o : Option α) :
    o = none ↔ o.isSome = false := by
  cases o <;> simp

theorem optStrField_isSome (o : Option Json) :
    (optStrField o).isSome = optStrOkB o := by
  cases o with
  | none => rfl
  | some j => cases j <;> rfl

theorem u64FieldDefault_isSome (o : Option Json) :
    (u64FieldDefault o).isSome = u64DefaultOkB o := by
  cases o with
  | none => rfl
  | some j =>
    cases j with
    | num n =>
      by_cases h : 0 ≤ n ∧ n.toNat < 18446744073709551616
      · simp [u64FieldDefault, getU64, u64DefaultOkB, u64OkB, h]
      · simp [u64FieldDefault, getU64, u64DefaultOkB, u64OkB, h]
    | null => rfl
    | bool b => rfl
    | str s => rfl
    | arr xs => rfl
    | obj kvs => rfl

theorem strListFieldDefault_isSome (o : Option Json) :
    (strListFieldDefault o).isSome = strListDefaultOkB o := by
  cases o with
  | none => rfl
  | some j =>
    cases j with
    | arr xs => exact mapM_asString_isSome xs
    | null => rfl
    | bool b => rfl
    | num n => rfl
    | str s => rfl
    | obj kvs => rfl

/-- Whether decoding a JSON document into a message succeeds, characterized
by the tag and required-field conditions. -/
theorem Message.fromJson_isSome (j : Json) :
    (Message.fromJson j).isSome = (!tagBadB j && !fieldsBadB j) := by
  cases j with
  | null => rfl
  | bool b => rfl
  | num n => rfl
  | str s => rfl
  | arr xs => rfl
  | obj kvs =>
    cases htag : lookupKey kvs "type" with
    | none => simp [Message.fromJson, tagBadB, fieldsBadB, htag]
    | some tv =>
      cases tv with
      | null => simp [Message.fromJson, tagBadB, fieldsBadB, htag]
      | bool b => simp [Message.fromJson, tagBadB, fieldsBadB, htag]
      | num n => simp [Message.fromJson, tagBadB, fieldsBadB, htag]
      | arr xs => simp [Message.fromJson, tagBadB, fieldsBadB, htag]
      | obj kvs2 => simp [Message.fromJson, tagBadB, fieldsBadB, htag]
      | str t =>
        by_cases e1 : t = "ACTIVATE_VERSION"
        · subst e1
          simp only [Message.fromJson, tagBadB, fieldsBadB, htag, requiredFieldsOkB,
            knownTags, ← strBind_isSome, ← u64Bind_isSome]
          cases hA : lookupKey kvs "stream" >>= asString with
          | none => simp [hA]
          | some s =>
            cases hB : lookupKey kvs "version" >>= getU64 with
            | none => simp [hA, hB]
            | some v => simp [hA, hB]
        · by_cases e2 : t = "BATCH"
          · subst e2
            simp only [Message.fromJson, tagBadB, fieldsBadB, htag, requiredFieldsOkB,
              knownTags, ← strBind_isSome, ← strListBind_isSome, ← encBind_isSome]
            cases hA : lookupKey kvs "stream" >>= asString with
            | none => simp [hA]
            | some s =>
              cases hB : lookupKey kvs "manifest" >>= asStringList with
              | none => simp [hA, hB]
              | some l =>
                cases hC : lookupKey kvs "encoding" >>= BatchEncoding.fromJson with
                | none => simp [hA, hB, hC]
                | some e => simp [hA, hB, hC]
          · by_cases e3 : t = "RECORD"
            · subst e3
              simp only [Message.fromJson, tagBadB, fieldsBadB, htag, requiredFieldsOkB,
                knownTags, ← strBind_isSome, ← optStrField_isSome, ← u64FieldDefault_isSome]
              cases hA : lookupKey kvs "stream" >>= asString with
              | none => simp [hA]
              | some s =>
                cases hR : lookupKey kvs "record" with
                | none => simp [hA, hR]
                | some r =>
                  cases hT : optStrField (lookupKey kvs "time_extracted") with
                  | none => simp [hA, hR, hT]
                  | some te =>
                    cases hV : u64FieldDefault (lookupKey kvs "version") with
                    | none => simp [hA, hR, hT, hV]
                    | some v => simp [hA, hR, hT, hV]
            · by_cases e4 : t = "SCHEMA"
              · subst e4
                simp only [Message.fromJson, tagBadB, fieldsBadB, htag, requiredFieldsOkB,
                  knownTags, ← strBind_isSome, ← strListFieldDefault_isSome]
                cases hA : lookupKey kvs "stream" >>= asString with
                | none => simp [hA]
                | some s =>
                  cases hS : lookupKey kvs "schema" with
                  | none => simp [hA, hS]
                  | some sc =>
                    cases hK : strListFieldDefault (lookupKey kvs "key_properties") with
                    | none => simp [hA, hS, hK]
                    | some kp =>
                      cases hBk : strListFieldDefault
                          (lookupKey kvs "bookmark_properties") with
                      | none => simp [hA, hS, hK, hBk]
                      | some bp => simp [hA, hS, hK, hBk]
              · by_cases e5 : t = "STATE"
                · subst e5
                  simp only [Message.fromJson, tagBadB, fieldsBadB, htag,
                    requiredFieldsOkB, knownTags]
                  cases hV : lookupKey kvs "value" with
                  | none => simp [hV]
                  | some v => simp [hV]
                · simp [Message.fromJson, tagBadB, fieldsBadB, htag, knownTags,
                    e1, e2, e3, e4, e5]

/-- C8: for every input line, decoding fails (with a `DecodeError`, the only
failure mode `from_string` has — it never silently returns a default or
other variant) exactly when the `type` tag field is missing or is not one
of the five known tags, or a required field of the resolved variant is
missing or has the wrong JSON type, or the line is not valid JSON. -/
theorem C8_decode_fails_iff (line : String) :
    Message.from_string line = none
      ↔ (Json.parse line = none
          ∨ ∃ j, Json.parse line = some j ∧ (tagBadB j = true ∨ fieldsBadB j = true)) := by
  unfold Message.from_string
  cases hp : Json.parse line with
  | none => simp
  | some j =>
    rw [show (some j).bind Message.fromJson = Message.fromJson j from rfl]
    rw [eq_none_iff_isSome_false, Message.fromJson_isSome]
    simp
    cases htb : tagBadB j <;> simp [htb]

/-! ### The arrow side (`singer_arrow/src/lib.rs`)

`SingerArrow.Error` mirrors the crate's `Error` enum; the error payloads of
the external `arrow`/`parquet` error types are modelled as strings. -/

namespace SingerArrow

/-- The crate's `Error` enum: `Arrow`, `Schema(String)`,
`TypeConversion(String)`, `Io`, `Parquet`. -/
inductive Error where
  | arrow (msg : String)
  | schema (msg : String)
  | typeConversion (msg : String)
  | io (msg : String)
  | parquet (msg : String)
deriving Repr, DecidableEq

/-- Is this error the `Error::Schema` variant? -/
def Error.isSchema : Error → Bool
  | .schema _ => true
  | _ => false

/-- Is this error the `Error::TypeConversion` variant? -/
def Error.isTypeConversion : Error → Bool
  | .typeConversion _ => true
  | _ => false

/-- The arrow data types the translator can produce. -/
inductive DataType where
  | utf8
  | int64
  | float64
  | boolean
deriving Repr, DecidableEq

/-- An arrow `Field`: name, data type, nullability. -/
structure Field where
  name : String
  dtype : DataType
  nullable : Bool
deriving Repr, DecidableEq

end SingerArrow

/-- `serde_json::Value::get(key)`: a lookup that yields `None` on
non-objects. -/
def jsonGet (j : Json) (key : String) : Option Json :=
  match j with
  | .obj kvs => lookupKey kvs key
  | _ => none

/-- `json_type_to_arrow`: read the declared type as a string and map it
through the fixed table; unknown names and non-strings are
`Error::TypeConversion`. -/
def json_type_to_arrow (type_obj : Json) : Except SingerArrow.Error SingerArrow.DataType :=
  match type_obj with
  | .str type_str =>
    if type_str = "string" then .ok .utf8
    else if type_str = "integer" then .ok .int64
    else if type_str = "number" then .ok .float64
    else if type_str = "boolean" then .ok .boolean
    else .error (.typeConversion ("Unsupported type: " ++ type_str))
  | _ => .error (.typeConversion "Type must be a string")

/-- `singer_schema_to_arrow`: build the arrow schema (a field list) from a
SCHEMA message's `properties`, every field non-nullable.  The members are
walked in stored order (the model keeps text order where `serde_json`'s
`BTreeMap` iterates in sorted key order; all claims are order-insensitive
or use schemas where the two coincide). -/
def singer_schema_to_arrow (schema_msg : Message) :
    Except SingerArrow.Error (List SingerArrow.Field) :=
  match schema_msg with
  | .SCHEMA _ schema _ _ =>
    match jsonGet schema "properties" with
    | none => .error (.schema "Schema missing properties")
    | some properties =>
      match properties with
      | .obj kvs =>
        kvs.mapM fun kv =>
          match jsonGet kv.2 "type" with
          | none => .error (.schema ("Property " ++ kv.1 ++ " missing type"))
          | some type_value =>
            (json_type_to_arrow type_value).map fun dt => SingerArrow.Field.mk kv.1 dt false
      | _ => .error (.schema "Properties must be an object")
  | _ => .error (.schema "Not a SCHEMA message")

/-- A materialized record batch: per schema field, the column name and its
cells (string-rendered values; `none` models an arrow null).  All columns
are built with `StringBuilder`s in the source. -/
structure ColumnarBatch where
  columns : List (String × List (Option String))
deriving Repr, DecidableEq

/-- The `record` documents of the RECORD messages in a batch (non-RECORD
entries contribute no row, mirroring the `if let` skip in the source). -/
def recordsOf (msgs : List Message) : List Json :=
  msgs.filterMap fun m =>
    match m with
    | .RECORD _ record _ _ => some record
    | _ => none

/-- `RecordBatch::try_new`'s per-column validation, as the source reaches
it: the builders make every column a Utf8 (string) array, so a column
passes when no null sits in a non-nullable field's column (checked first)
and the field's declared type is Utf8; otherwise `try_new` rejects the
batch with an arrow error (its exact message text is abstracted). -/
def tryNewColumn (f : SingerArrow.Field) (cells : List (Option String)) :
    Except SingerArrow.Error (String × List (Option String)) :=
  if !f.nullable && cells.any fun c => c.isNone then
    .error (.arrow ("Column " ++ f.name
      ++ " is declared as non-nullable but contains null values"))
  else if f.dtype ≠ SingerArrow.DataType.utf8 then
    .error (.arrow "column types must match schema types")
  else .ok (f.name, cells)

/-- `ToRecordBatch for Vec<Message>`: an empty message list yields
`RecordBatch::new_empty` (no validation); otherwise, for each schema
field, scan every pending record's document — a present value is appended
as its JSON text rendering (`Value::to_string`), an absent one as a
null — and then `RecordBatch::try_new` validates the batch: at least one
column, and each column passing `tryNewColumn` in schema order. -/
def to_record_batch (msgs : List Message) (schema : List SingerArrow.Field) :
    Except SingerArrow.Error ColumnarBatch :=
  if msgs.isEmpty then .ok ⟨schema.map fun f => (f.name, [])⟩
  else if schema.isEmpty then
    .error (.arrow "must either specify a row count or at least one column")
  else
    (schema.mapM fun f =>
        tryNewColumn f
          ((recordsOf msgs).map fun r => (jsonGet r f.name).map Json.render)).map
      fun cols => ⟨cols⟩

/-- The number of rows of a batch's first column (every column has the
same length by construction). -/
def ColumnarBatch.numRows (b : ColumnarBatch) : Nat :=
  match b.columns with
  | [] => 0
  | c :: _ => c.2.length

/-- The cells of the named column. -/
def ColumnarBatch.col (b : ColumnarBatch) (name : String) : Option (List (Option String)) :=
  (b.columns.find? fun c => c.1 = name).map Prod.snd

/-- The sink's state (`ParquetSink` in `sink.rs`; `ParquetTarget` in
`target.rs` has the identical fields, so the model shares the state type;
`writer_properties` is a fixed compression policy with no behavior in the
model). -/
structure ParquetSink where
  schema : List SingerArrow.Field
  output_path : String
  batch_size : Nat
  current_batch : List Message
deriving Repr

/-- The filesystem visible to the sink: a map from path to the batch most
recently written there (`File::create` truncates, so a write replaces). -/
def FileSys := List (String × ColumnarBatch)

/-- Write (create or fully replace) the file at `path`. -/
def fsWrite (fs : FileSys) (path : String) (b : ColumnarBatch) : FileSys :=
  match fs with
  | [] => [(path, b)]
  | (p, old) :: rest =>
    if p = path then (p, b) :: rest else (p, old) :: fsWrite rest path b

/-- An abstract `write_batch` backend: `File::create` + `ArrowWriter`,
which may fail with an io/parquet error. -/
def BatchWriter := String → ColumnarBatch → FileSys → Except SingerArrow.Error FileSys

/-- The writer on a healthy filesystem: the write succeeds and replaces
the file's content. -/
def goodWriter : BatchWriter := fun path b fs => .ok (fsWrite fs path b)

/-- `ParquetSink::flush`: no-op when the pending batch is empty; otherwise
materialize (`to_record_batch`, whose `try_new` validation can fail before
any write) and then write, clearing the pending batch only after a
successful write (`&mut self` semantics: on either error the state is
returned unchanged, the pending batch retained). -/
def ParquetSink.flush (w : BatchWriter) (s : ParquetSink) (fs : FileSys) :
    ParquetSink × FileSys × Option SingerArrow.Error :=
  if s.current_batch.isEmpty then (s, fs, none)
  else
    match to_record_batch s.current_batch s.schema with
    | .error e => (s, fs, some e)
    | .ok batch =>
      match w s.output_path batch fs with
      | .error e => (s, fs, some e)
      | .ok fs' => ({ s with current_batch := [] }, fs', none)

/-- Is this message the RECORD variant? -/
def Message.isRecordB : Message → Bool
  | .RECORD _ _ _ _ => true
  | _ => false

/-- `ParquetSink::add_record`: push a RECORD onto the pending batch and
flush once the pending count reaches `batch_size`; every other variant is
silently ignored. -/
def ParquetSink.add_record (w : BatchWriter) (s : ParquetSink) (fs : FileSys) (m : Message) :
    ParquetSink × FileSys × Option SingerArrow.Error :=
  if m.isRecordB then
    let s' := { s with current_batch := s.current_batch ++ [m] }
    if s'.current_batch.length ≥ s.batch_size then ParquetSink.flush w s' fs
    else (s', fs, none)
  else (s, fs, none)

/-- `ParquetTarget::flush`: textually identical to `ParquetSink::flush`. -/
def ParquetTarget.flush (w : BatchWriter) (s : ParquetSink) (fs : FileSys) :
    ParquetSink × FileSys × Option SingerArrow.Error :=
  if s.current_batch.isEmpty then (s, fs, none)
  else
    match to_record_batch s.current_batch s.schema with
    | .error e => (s, fs, some e)
    | .ok batch =>
      match w s.output_path batch fs with
      | .error e => (s, fs, some e)
      | .ok fs' => ({ s with current_batch := [] }, fs', none)

/-- `ParquetTarget::add_record`: textually identical to
`ParquetSink::add_record`. -/
def ParquetTarget.add_record (w : BatchWriter) (s : ParquetSink) (fs : FileSys) (m : Message) :
    ParquetSink × FileSys × Option SingerArrow.Error :=
  if m.isRecordB then
    let s' := { s with current_batch := s.current_batch ++ [m] }
    if s'.current_batch.length ≥ s.batch_size then ParquetTarget.flush w s' fs
    else (s', fs, none)
  else (s, fs, none)

/-! ### C4/C5: the schema translator -/

theorem exceptOk_bind {ε α β : Type} (a : α) (f : α → Except ε β) :
    (Except.ok (ε := ε) a >>= f) = f a := rfl

theorem exceptErr_bind {ε α β : Type} (e : ε) (f : α → Except ε β) :
    (Except.error (α := α) e >>= f) = .error e := rfl

theorem listMapM_congr_ok {α β ε : Type} (g : α → Except ε β) (f : α → β) :
    ∀ (l : List α), (∀ a ∈ l, g a = .ok (f a)) → l.mapM g = .ok (l.map f)
  | [], _ => rfl
  | a :: t, h => by
    have ih : t.mapM g = .ok (t.map f) :=
      listMapM_congr_ok g f t fun x hx => h x (List.mem_cons_of_mem a hx)
    rw [List.mapM_cons, h a (List.mem_cons_self a t), exceptOk_bind, ih, exceptOk_bind,
      List.map_cons]
    rfl

theorem listMapM_ok_forall {α β ε : Type} (g : α → Except ε β) :
    ∀ (l : List α) (ys : List β), l.mapM g = .ok ys → ∀ a ∈ l, ∃ b, g a = .ok b
  | [], _, _, a, ha => absurd ha (List.not_mem_nil a)
  | x :: t, ys, h, a, ha => by
    rw [List.mapM_cons] at h
    cases hx : g x with
    | error e => rw [hx, exceptErr_bind] at h; exact absurd h (by simp)
    | ok b =>
      rw [hx, exceptOk_bind] at h
      cases ht : t.mapM g with
      | error e => rw [ht, exceptErr_bind] at h; exact absurd h (by simp)
      | ok bs =>
        cases List.mem_cons.mp ha with
        | inl he => exact he ▸ ⟨b, hx⟩
        | inr hm => exact listMapM_ok_forall g t bs ht a hm

theorem listMapM_exists_ok {α β ε : Type} (g : α → Except ε β) :
    ∀ (l : List α), (∀ a ∈ l, ∃ b, g a = .ok b) → ∃ ys, l.mapM g = .ok ys
  | [], _ => ⟨[], rfl⟩
  | a :: t, h => by
    obtain ⟨b, hb⟩ := h a (List.mem_cons_self a t)
    obtain ⟨ys, hys⟩ := listMapM_exists_ok g t fun x hx => h x (List.mem_cons_of_mem a hx)
    exact ⟨b :: ys, by rw [List.mapM_cons, hb, exceptOk_bind, hys, exceptOk_bind]; rfl⟩

theorem listMapM_error_mem {α β ε : Type} (g : α → Except ε β) :
    ∀ (l : List α) (e : ε), l.mapM g = .error e → ∃ a ∈ l, g a = .error e
  | [], e, h => Except.noConfusion h
  | a :: t, e, h => by
    rw [List.mapM_cons] at h
    cases hx : g a with
    | error e' =>
      rw [hx, exceptErr_bind] at h
      simp at h
      exact ⟨a, List.mem_cons_self a t, by rw [hx, h]⟩
    | ok b =>
      rw [hx, exceptOk_bind] at h
      cases ht : t.mapM g with
      | error e' =>
        rw [ht, exceptErr_bind] at h
        simp at h
        obtain ⟨x, hx1, hx2⟩ := listMapM_error_mem g t e' ht
        exact ⟨x, List.mem_cons_of_mem a hx1, by rw [hx2, h]⟩
      | ok bs =>
        rw [ht, exceptOk_bind] at h
        exact Except.noConfusion h

theorem listMapM_ok_mem {α β ε : Type} (g : α → Except ε β) :
    ∀ (l : List α) (ys : List β), l.mapM g = .ok ys → ∀ y ∈ ys, ∃ a ∈ l, g a = .ok y
  | [], ys, h, y, hy => by
    have : ys = [] := by
      have h' : (Except.ok [] : Except ε (List β)) = .ok ys := h
      simpa using h'.symm
    subst this
    exact absurd hy (List.not_mem_nil y)
  | x :: t, ys, h, y, hy => by
    rw [List.mapM_cons] at h
    cases hx : g x with
    | error e => rw [hx, exceptErr_bind] at h; exact Except.noConfusion h
    | ok b =>
      rw [hx, exceptOk_bind] at h
      cases ht : t.mapM g with
      | error e => rw [ht, exceptErr_bind] at h; exact Except.noConfusion h
      | ok bs =>
        rw [ht, exceptOk_bind] at h
        have hys : ys = b :: bs := by
          have h' : (Except.ok (b :: bs) : Except ε (List β)) = .ok ys := h
          simpa using h'.symm
        subst hys
        cases List.mem_cons.mp hy with
        | inl he => exact ⟨x, List.mem_cons_self x t, he ▸ hx⟩
        | inr hm =>
          obtain ⟨a, ha1, ha2⟩ := listMapM_ok_mem g t bs ht y hm
          exact ⟨a, List.mem_cons_of_mem x ha1, ha2⟩

/-- The data type the translator assigns to a property (defaulting to UTF8
outside the domain where the translator succeeds). -/
def fieldTypeOf (p : Json) : SingerArrow.DataType :=
  match jsonGet p "type" with
  | some tv =>
    match json_type_to_arrow tv with
    | .ok dt => dt
    | .error _ => .utf8
  | none => .utf8

/-- C4: translating a SCHEMA message maps each `schema.properties` entry
through the fixed table (`string → UTF8`, `integer → Int64`,
`number → Float64`, `boolean → Boolean`) and marks every output field
`nullable = false` regardless of the declared schema.  The witness
instantiates the claim's example `{"id": integer, "name": string}`. -/
theorem C4_schema_translation :
    (json_type_to_arrow (.str "string") = .ok .utf8
      ∧ json_type_to_arrow (.str "integer") = .ok .int64
      ∧ json_type_to_arrow (.str "number") = .ok .float64
      ∧ json_type_to_arrow (.str "boolean") = .ok .boolean)
    ∧ (∀ (m : Message) (fields : List SingerArrow.Field),
        singer_schema_to_arrow m = .ok fields → ∀ f ∈ fields, f.nullable = false)
    ∧ (∀ (stream : String) (schema : Json) (kp bp : List String)
        (kvs : List (String × Json)),
        jsonGet schema "properties" = some (.obj kvs) →
        (∀ kv ∈ kvs, ∃ tv dt, jsonGet kv.2 "type" = some tv
            ∧ json_type_to_arrow tv = .ok dt) →
        singer_schema_to_arrow (.SCHEMA stream schema kp bp)
          = .ok (kvs.map fun kv => SingerArrow.Field.mk kv.1 (fieldTypeOf kv.2) false)) := by
  refine ⟨⟨rfl, rfl, rfl, rfl⟩, ?_, ?_⟩
  · intro m fields h f hf
    cases m with
    | SCHEMA stream schema kp bp =>
      simp only [singer_schema_to_arrow] at h
      cases hp : jsonGet schema "properties" with
      | none => rw [hp] at h; exact Except.noConfusion h
      | some props =>
        rw [hp] at h
        cases props with
        | obj kvs =>
          simp only at h
          obtain ⟨kv, _, hkv⟩ := listMapM_ok_mem _ kvs fields h f hf
          cases htv : jsonGet kv.2 "type" with
          | none =>
            simp only [htv] at hkv
            exact Except.noConfusion hkv
          | some tv =>
            simp only [htv] at hkv
            cases hdt : json_type_to_arrow tv with
            | error e =>
              simp only [hdt, Except.map] at hkv
              exact Except.noConfusion hkv
            | ok dt =>
              simp only [hdt] at hkv
              have : SingerArrow.Field.mk kv.1 dt false = f := by
                simpa [Except.map] using hkv
              rw [← this]
        | null => exact Except.noConfusion h
        | bool b => exact Except.noConfusion h
        | num n => exact Except.noConfusion h
        | str s => exact Except.noConfusion h
        | arr xs => exact Except.noConfusion h
    | ACTIVATE_VERSION stream version => exact Except.noConfusion h
    | BATCH stream manifest encoding => exact Except.noConfusion h
    | RECORD stream record te version => exact Except.noConfusion h
    | STATE value => exact Except.noConfusion h
  · intro stream schema kp bp kvs hp hwell
    simp only [singer_schema_to_arrow, hp]
    refine listMapM_congr_ok _ _ kvs ?_
    intro kv hkv
    obtain ⟨tv, dt, htv, hdt⟩ := hwell kv hkv
    have hft : fieldTypeOf kv.2 = dt := by
      simp [fieldTypeOf, htv, hdt]
    simp only [htv, hdt, hft]
    rfl

/-- Witness for C4 at the claim's example: two properties, `id: integer`
and `name: string`, give exactly two fields, Int64 and UTF8, both
non-nullable. -/
theorem C4_schema_translation_witness :
    singer_schema_to_arrow (.SCHEMA "users"
        (.obj [("properties", .obj [("id", .obj [("type", .str "integer")]),
          ("name", .obj [("type", .str "string")])])]) [] [])
      = .ok [⟨"id", .int64, false⟩, ⟨"name", .utf8, false⟩] := by
  have h := C4_schema_translation.2.2 "users"
    (.obj [("properties", .obj [("id", .obj [("type", .str "integer")]),
      ("name", .obj [("type", .str "string")])])]) [] []
    [("id", .obj [("type", .str "integer")]), ("name", .obj [("type", .str "string")])]
    rfl
    (by
      intro kv hkv
      simp only [List.mem_cons, List.not_mem_nil, or_false] at hkv
      cases hkv with
      | inl he => exact he ▸ ⟨.str "integer", .int64, rfl, rfl⟩
      | inr he => exact he ▸ ⟨.str "string", .utf8, rfl, rfl⟩)
  exact h

/-- Is this message the SCHEMA variant? -/
def Message.isSchemaB : Message → Bool
  | .SCHEMA _ _ _ _ => true
  | _ => false

theorem json_type_to_arrow_ok_iff (tv : Json) :
    (∃ dt, json_type_to_arrow tv = .ok dt)
      ↔ ∃ t, tv = .str t ∧ t ∈ ["string", "integer", "number", "boolean"] := by
  cases tv with
  | str s =>
    constructor
    · rintro ⟨dt, h⟩
      by_cases e1 : s = "string"
      · exact ⟨s, rfl, by simp [e1]⟩
      by_cases e2 : s = "integer"
      · exact ⟨s, rfl, by simp [e2]⟩
      by_cases e3 : s = "number"
      · exact ⟨s, rfl, by simp [e3]⟩
      by_cases e4 : s = "boolean"
      · exact ⟨s, rfl, by simp [e4]⟩
      simp [json_type_to_arrow, e1, e2, e3, e4] at h
    · rintro ⟨t, he, hm⟩
      cases he
      simp only [List.mem_cons, List.not_mem_nil, or_false] at hm
      rcases hm with rfl | rfl | rfl | rfl
      · exact ⟨.utf8, rfl⟩
      · exact ⟨.int64, rfl⟩
      · exact ⟨.float64, rfl⟩
      · exact ⟨.boolean, rfl⟩
  | null => simp [json_type_to_arrow]
  | bool b => simp [json_type_to_arrow]
  | num n => simp [json_type_to_arrow]
  | arr xs => simp [json_type_to_arrow]
  | obj kvs => simp [json_type_to_arrow]

theorem json_type_to_arrow_error_kind (tv : Json) (e : SingerArrow.Error)
    (h : json_type_to_arrow tv = .error e) : e.isTypeConversion = true := by
  cases tv with
  | str s =>
    by_cases e1 : s = "string"
    · simp [json_type_to_arrow, e1] at h
    by_cases e2 : s = "integer"
    · simp [json_type_to_arrow, e1, e2] at h
    by_cases e3 : s = "number"
    · simp [json_type_to_arrow, e1, e2, e3] at h
    by_cases e4 : s = "boolean"
    · simp [json_type_to_arrow, e1, e2, e3, e4] at h
    · simp only [json_type_to_arrow, if_neg e1, if_neg e2, if_neg e3, if_neg e4] at h
      have : e = .typeConversion ("Unsupported type: " ++ s) := by
        simpa using h.symm
      rw [this]
      rfl
  | null => simp only [json_type_to_arrow] at h; rw [show e = .typeConversion "Type must be a string" by simpa using h.symm]; rfl
  | bool b => simp only [json_type_to_arrow] at h; rw [show e = .typeConversion "Type must be a string" by simpa using h.symm]; rfl
  | num n => simp only [json_type_to_arrow] at h; rw [show e = .typeConversion "Type must be a string" by simpa using h.symm]; rfl
  | arr xs => simp only [json_type_to_arrow] at h; rw [show e = .typeConversion "Type must be a string" by simpa using h.symm]; rfl
  | obj kvs => simp only [json_type_to_arrow] at h; rw [show e = .typeConversion "Type must be a string" by simpa using h.symm]; rfl

/-- C5 counterexample: an unrecognized scalar name (`"date"`) makes the
translation fail with `Error::TypeConversion`, not with the Schema error
kind the claim calls `SchemaError`. -/
theorem C5_counterexample :
    singer_schema_to_arrow (.SCHEMA "s"
        (.obj [("properties", .obj [("id", .obj [("type", .str "date")])])]) [] [])
      = .error (.typeConversion "Unsupported type: date")
    ∧ SingerArrow.Error.isSchema (.typeConversion "Unsupported type: date") = false :=
  ⟨rfl, rfl⟩

/-- C5 amended: schema translation fails exactly when `properties` is
absent, not an object, a property lacks a `type`, or a `type` is not a
recognized scalar name — but the failure kinds differ from the claim:
missing/non-object `properties` and missing `type` give `Error::Schema`,
an unrecognized (or non-string) `type` gives `Error::TypeConversion`, and
a non-SCHEMA message gives `Error::Schema("Not a SCHEMA message")` — the
same `Schema` kind as schema failures, not a distinct `WrongMessageKind`. -/
theorem C5_translation_errors :
    (∀ (m : Message), m.isSchemaB = false →
      singer_schema_to_arrow m = .error (.schema "Not a SCHEMA message"))
    ∧ (∀ (stream : String) (schema : Json) (kp bp : List String),
        (∃ fields, singer_schema_to_arrow (.SCHEMA stream schema kp bp) = .ok fields)
          ↔ ∃ kvs, jsonGet schema "properties" = some (.obj kvs)
              ∧ ∀ kv ∈ kvs, ∃ t, jsonGet kv.2 "type" = some (.str t)
                  ∧ t ∈ ["string", "integer", "number", "boolean"])
    ∧ (∀ (stream : String) (schema : Json) (kp bp : List String),
        jsonGet schema "properties" = none →
        singer_schema_to_arrow (.SCHEMA stream schema kp bp)
          = .error (.schema "Schema missing properties"))
    ∧ (∀ (stream : String) (schema : Json) (kp bp : List String) (props : Json),
        jsonGet schema "properties" = some props → (∀ kvs, props ≠ .obj kvs) →
        singer_schema_to_arrow (.SCHEMA stream schema kp bp)
          = .error (.schema "Properties must be an object"))
    ∧ (∀ (stream : String) (schema : Json) (kp bp : List String)
        (kvs : List (String × Json)) (e : SingerArrow.Error),
        jsonGet schema "properties" = some (.obj kvs) →
        (∀ kv ∈ kvs, (jsonGet kv.2 "type").isSome) →
        singer_schema_to_arrow (.SCHEMA stream schema kp bp) = .error e →
        e.isTypeConversion = true) := by
  refine ⟨?_, ?_, ?_, ?_, ?_⟩
  · intro m h
    cases m with
    | SCHEMA stream schema kp bp => simp [Message.isSchemaB] at h
    | ACTIVATE_VERSION s v => rfl
    | BATCH s mf e => rfl
    | RECORD s r t v => rfl
    | STATE v => rfl
  · intro stream schema kp bp
    constructor
    · rintro ⟨fields, h⟩
      simp only [singer_schema_to_arrow] at h
      cases hp : jsonGet schema "properties" with
      | none => rw [hp] at h; exact Except.noConfusion h
      | some props =>
        rw [hp] at h
        cases props with
        | obj kvs =>
          refine ⟨kvs, rfl, ?_⟩
          intro kv hkv
          simp only at h
          obtain ⟨b, hb⟩ := listMapM_ok_forall _ kvs fields h kv hkv
          cases htv : jsonGet kv.2 "type" with
          | none => simp only [htv] at hb; exact Except.noConfusion hb
          | some tv =>
            simp only [htv] at hb
            have hok : ∃ dt, json_type_to_arrow tv = .ok dt := by
              cases hdt : json_type_to_arrow tv with
              | error e =>
                simp only [hdt, Except.map] at hb
                exact Except.noConfusion hb
              | ok dt => exact ⟨dt, rfl⟩
            obtain ⟨t, rfl, hm⟩ := (json_type_to_arrow_ok_iff tv).mp hok
            exact ⟨t, rfl, hm⟩
        | null => exact Except.noConfusion h
        | bool b => exact Except.noConfusion h
        | num n => exact Except.noConfusion h
        | str s => exact Except.noConfusion h
        | arr xs => exact Except.noConfusion h
    · rintro ⟨kvs, hp, hwell⟩
      simp only [singer_schema_to_arrow, hp]
      have hpt : ∀ kv ∈ kvs, ∃ b,
          (match jsonGet kv.2 "type" with
            | none => Except.error (SingerArrow.Error.schema
                ("Property " ++ kv.1 ++ " missing type"))
            | some type_value => (json_type_to_arrow type_value).map
                fun dt => SingerArrow.Field.mk kv.1 dt false) = Except.ok b := by
        intro kv hkv
        obtain ⟨t, htv, hm⟩ := hwell kv hkv
        obtain ⟨dt, hdt⟩ := (json_type_to_arrow_ok_iff (.str t)).mpr ⟨t, rfl, hm⟩
        refine ⟨SingerArrow.Field.mk kv.1 dt false, ?_⟩
        simp only [htv, hdt]
        rfl
      obtain ⟨ys, hys⟩ := listMapM_exists_ok _ kvs hpt
      exact ⟨ys, hys⟩
  · intro stream schema kp bp hp
    simp [singer_schema_to_arrow, hp]
  · intro stream schema kp bp props hp hno
    simp only [singer_schema_to_arrow, hp]
  · intro stream schema kp bp kvs e hp htypes herr
    simp only [singer_schema_to_arrow, hp] at herr
    obtain ⟨kv, hkv, hbad⟩ := listMapM_error_mem _ kvs e herr
    cases htv : jsonGet kv.2 "type" with
    | none =>
      have := htypes kv hkv
      rw [htv] at this
      exact absurd this (by simp)
    | some tv =>
      simp only [htv] at hbad
      cases hdt : json_type_to_arrow tv with
      | error e' =>
        have he : e' = e := by
          simp only [hdt, Except.map] at hbad
          simpa using hbad
        exact he ▸ json_type_to_arrow_error_kind tv e' hdt
      | ok dt =>
        simp only [hdt] at hbad
        exact Except.noConfusion hbad

/-- Witness for C5: part (i) applied at a concrete non-SCHEMA message and
part (iii) at a concrete SCHEMA whose schema has no `properties` key. -/
theorem C5_translation_errors_witness :
    singer_schema_to_arrow (.STATE .null) = .error (.schema "Not a SCHEMA message")
    ∧ singer_schema_to_arrow (.SCHEMA "s" (.obj []) [] [])
        = .error (.schema "Schema missing properties") :=
  ⟨C5_translation_errors.1 (.STATE .null) rfl,
   C5_translation_errors.2.2.1 "s" (.obj []) [] [] rfl⟩

/-! ### C2/C3/C6/C9/C10: the sink (`sink.rs`) and the target (`target.rs`) -/

/-- A batch writer whose backend always fails with `e` (`File::create` or
`ArrowWriter` failure). -/
def badWriter (e : SingerArrow.Error) : BatchWriter := fun _ _ _ => .error e

/-- A successful `tryNewColumn` returns the column it was given. -/
theorem tryNewColumn_ok (f : SingerArrow.Field) (cells : List (Option String))
    (c : String × List (Option String)) (h : tryNewColumn f cells = .ok c) :
    c = (f.name, cells) := by
  simp only [tryNewColumn] at h
  split at h
  · exact Except.noConfusion h
  · split at h
    · exact Except.noConfusion h
    · cases h
      rfl

/-- A successful `mapM` whose function only ever returns `f a` produced
exactly the mapped list. -/
theorem listMapM_ok_shape {α β ε : Type} (g : α → Except ε β) (f : α → β)
    (hg : ∀ (a : α) (b : β), g a = .ok b → b = f a) :
    ∀ (l : List α) (ys : List β), l.mapM g = .ok ys → ys = l.map f
  | [], ys, h => by
    have h2 : (Except.ok [] : Except ε (List β)) = .ok ys := h
    simpa using h2.symm
  | a :: t, ys, h => by
    rw [List.mapM_cons] at h
    cases hx : g a with
    | error e => rw [hx, exceptErr_bind] at h; exact Except.noConfusion h
    | ok b =>
      rw [hx, exceptOk_bind] at h
      cases ht : t.mapM g with
      | error e => rw [ht, exceptErr_bind] at h; exact Except.noConfusion h
      | ok bs =>
        rw [ht, exceptOk_bind] at h
        have hys : ys = b :: bs := by
          have h2 : (Except.ok (b :: bs) : Except ε (List β)) = .ok ys := h
          simpa using h2.symm
        subst hys
        rw [List.map_cons, hg a b hx, listMapM_ok_shape g f hg t bs ht]

/-- Whatever batch materialization returns, its columns are the schema
fields in order, each cell the JSON text rendering of its record's value
when the key is present and a null when it is absent. -/
theorem to_record_batch_ok_shape (msgs : List Message)
    (schema : List SingerArrow.Field) (b : ColumnarBatch)
    (h : to_record_batch msgs schema = .ok b) :
    b.columns = schema.map fun f =>
      (f.name, (recordsOf msgs).map fun r => (jsonGet r f.name).map Json.render) := by
  by_cases hm : msgs.isEmpty = true
  · have hrec : recordsOf msgs = [] := by
      cases msgs with
      | nil => rfl
      | cons a t => simp [List.isEmpty] at hm
    simp only [to_record_batch] at h
    rw [if_pos hm] at h
    cases h
    simp [hrec]
  · simp only [to_record_batch] at h
    rw [if_neg hm] at h
    by_cases hsch : schema.isEmpty = true
    · rw [if_pos hsch] at h
      exact Except.noConfusion h
    · rw [if_neg hsch] at h
      cases hmm : schema.mapM (fun f =>
          tryNewColumn f ((recordsOf msgs).map fun r => (jsonGet r f.name).map Json.render))
        with
      | error e => rw [hmm] at h; exact Except.noConfusion h
      | ok cols =>
        rw [hmm] at h
        cases h
        exact listMapM_ok_shape _ _ (fun f c hc => tryNewColumn_ok f _ c hc)
          schema cols hmm

/-- The row count of a successfully materialized batch over a non-empty
schema is the number of pending RECORD documents. -/
theorem numRows_of_ok (msgs : List Message) (f : SingerArrow.Field)
    (rest : List SingerArrow.Field) (b : ColumnarBatch)
    (h : to_record_batch msgs (f :: rest) = .ok b) :
    b.numRows = (recordsOf msgs).length := by
  have hs := to_record_batch_ok_shape msgs (f :: rest) b h
  cases b with
  | mk cols =>
    simp only at hs
    simp [ColumnarBatch.numRows, hs]

/-- C9: a message that is not a RECORD variant is silently ignored by
`add_record`, on the sink and on the target alike: the call succeeds (no
error), the whole sink state — schema, output path, batch size, pending
batch — is returned unchanged, and the filesystem is untouched. -/
theorem C9_non_record_ignored (w : BatchWriter) (s : ParquetSink) (fs : FileSys)
    (m : Message) (h : m.isRecordB = false) :
    ParquetSink.add_record w s fs m = (s, fs, none)
    ∧ ParquetTarget.add_record w s fs m = (s, fs, none) := by
  constructor <;> simp [ParquetSink.add_record, ParquetTarget.add_record, h]

/-- Witness for C9 at a concrete SCHEMA message. -/
theorem C9_non_record_ignored_witness :
    Message.isRecordB (.SCHEMA "s" (.obj []) [] []) = false
    ∧ ParquetSink.add_record goodWriter ⟨[], "out/s.parquet", 2, []⟩ []
        (.SCHEMA "s" (.obj []) [] []) = (⟨[], "out/s.parquet", 2, []⟩, [], none) :=
  ⟨rfl, (C9_non_record_ignored goodWriter ⟨[], "out/s.parquet", 2, []⟩ []
      (.SCHEMA "s" (.obj []) [] []) rfl).1⟩

/-- C6: the flush contract.  (i) On an empty pending batch, `flush` is a
no-op: no write, no error, state unchanged.  (ii) When materialization
fails at `RecordBatch::try_new` (a non-Utf8 declared field or a null in a
non-nullable column), its error propagates before any write: sink state
and filesystem are unchanged, the pending batch retained.  (iii) When
materialization succeeds and the backend write succeeds, the pending
batch is cleared and the new filesystem is the write's result.  (iv) When
materialization succeeds and the backend write fails, the error
propagates, sink state and filesystem unchanged — the pending batch is
still the same non-empty list, so the caller may retry.
(v) `ParquetTarget::flush` is the same function as `ParquetSink::flush`. -/
theorem C6_flush_contract :
    (∀ (w : BatchWriter) (s : ParquetSink) (fs : FileSys),
      s.current_batch = [] → ParquetSink.flush w s fs = (s, fs, none))
    ∧ (∀ (w : BatchWriter) (s : ParquetSink) (fs : FileSys) (e : SingerArrow.Error),
        s.current_batch ≠ [] →
        to_record_batch s.current_batch s.schema = .error e →
        ParquetSink.flush w s fs = (s, fs, some e))
    ∧ (∀ (w : BatchWriter) (s : ParquetSink) (fs fs2 : FileSys) (b : ColumnarBatch),
        s.current_batch ≠ [] →
        to_record_batch s.current_batch s.schema = .ok b →
        w s.output_path b fs = .ok fs2 →
        ParquetSink.flush w s fs = ({ s with current_batch := [] }, fs2, none))
    ∧ (∀ (w : BatchWriter) (s : ParquetSink) (fs : FileSys) (b : ColumnarBatch)
        (e : SingerArrow.Error),
        s.current_batch ≠ [] →
        to_record_batch s.current_batch s.schema = .ok b →
        w s.output_path b fs = .error e →
        ParquetSink.flush w s fs = (s, fs, some e))
    ∧ ParquetTarget.flush = ParquetSink.flush := by
  refine ⟨?_, ?_, ?_, ?_, rfl⟩
  · intro w s fs h
    simp [ParquetSink.flush, h]
  · intro w s fs e h hb
    have hne : ¬ s.current_batch.isEmpty = true := by
      simpa [List.isEmpty_iff] using h
    simp [ParquetSink.flush, hne, hb]
  · intro w s fs fs2 b h hb hw
    have hne : ¬ s.current_batch.isEmpty = true := by
      simpa [List.isEmpty_iff] using h
    simp [ParquetSink.flush, hne, hb, hw]
  · intro w s fs b e h hb hw
    have hne : ¬ s.current_batch.isEmpty = true := by
      simpa [List.isEmpty_iff] using h
    simp [ParquetSink.flush, hne, hb, hw]

/-- Witness for C6: flushing an empty batch on a healthy filesystem;
flushing a batch whose schema declares an Int64 field (materialization
fails, state kept); and flushing a well-typed batch against a writer
whose backend fails (error propagated, state kept). -/
theorem C6_flush_contract_witness :
    ParquetSink.flush goodWriter ⟨[⟨"id", .utf8, false⟩], "out/s.parquet", 2, []⟩ []
      = (⟨[⟨"id", .utf8, false⟩], "out/s.parquet", 2, []⟩, [], none)
    ∧ ParquetSink.flush goodWriter
        ⟨[⟨"id", .int64, false⟩], "out/s.parquet", 2,
         [.RECORD "s" (.obj [("id", .num 1)]) none 0]⟩ []
      = (⟨[⟨"id", .int64, false⟩], "out/s.parquet", 2,
          [.RECORD "s" (.obj [("id", .num 1)]) none 0]⟩, [],
         some (.arrow "column types must match schema types"))
    ∧ ParquetSink.flush (badWriter (.io "disk full"))
        ⟨[⟨"id", .utf8, false⟩], "out/s.parquet", 2,
         [.RECORD "s" (.obj [("id", .str "1")]) none 0]⟩ []
      = (⟨[⟨"id", .utf8, false⟩], "out/s.parquet", 2,
          [.RECORD "s" (.obj [("id", .str "1")]) none 0]⟩, [],
         some (.io "disk full")) :=
  ⟨C6_flush_contract.1 goodWriter ⟨[⟨"id", .utf8, false⟩], "out/s.parquet", 2, []⟩ [] rfl,
   C6_flush_contract.2.1 goodWriter
     ⟨[⟨"id", .int64, false⟩], "out/s.parquet", 2,
      [.RECORD "s" (.obj [("id", .num 1)]) none 0]⟩ []
     (.arrow "column types must match schema types") (by simp) rfl,
   C6_flush_contract.2.2.2.1 (badWriter (.io "disk full"))
     ⟨[⟨"id", .utf8, false⟩], "out/s.parquet", 2,
      [.RECORD "s" (.obj [("id", .str "1")]) none 0]⟩ []
     ⟨[("id", [some "\"1\""])]⟩ (.io "disk full") (by simp) rfl rfl⟩

/-- C10 counterexample: a RECORD lacking the schema key is appended and
counts toward the threshold, but it does not contribute a row to a
flushed file — the builders record a null in the non-nullable `id`
column, `RecordBatch::try_new` rejects the batch, and the triggered flush
returns an error with no file written. -/
theorem C10_counterexample :
    (ParquetSink.add_record goodWriter
        ⟨[⟨"id", SingerArrow.DataType.utf8, false⟩], "out/s.parquet", 1, []⟩ []
        (.RECORD "s" (.obj [("x", .num 7)]) none 0)).2.1 = []
    ∧ ((ParquetSink.add_record goodWriter
        ⟨[⟨"id", SingerArrow.DataType.utf8, false⟩], "out/s.parquet", 1, []⟩ []
        (.RECORD "s" (.obj [("x", .num 7)]) none 0)).2.2).isSome = true :=
  ⟨rfl, rfl⟩

/-- C10 amended (implicit): `add_record` filters only on the message
variant, never on the stream name — a RECORD with any stream, version and
`time_extracted` is appended to the pending batch (sink and target
alike), counts toward the threshold, and its document appears in row
order; whenever the next materialization succeeds it contributes exactly
one row, but a record lacking a schema key makes that materialization
fail, so the flushed file is not unconditional. -/
theorem C10_variant_only (s : ParquetSink) (fs : FileSys)
    (stream : String) (record : Json) (te : Option String) (v : Nat) :
    (∀ w : BatchWriter,
      (s.current_batch ++ [Message.RECORD stream record te v]).length < s.batch_size →
      ParquetSink.add_record w s fs (.RECORD stream record te v)
        = ({ s with current_batch := s.current_batch ++ [.RECORD stream record te v] },
           fs, none)
      ∧ ParquetTarget.add_record w s fs (.RECORD stream record te v)
        = ({ s with current_batch := s.current_batch ++ [.RECORD stream record te v] },
           fs, none))
    ∧ recordsOf (s.current_batch ++ [.RECORD stream record te v])
        = recordsOf s.current_batch ++ [record]
    ∧ (∀ (f : SingerArrow.Field) (rest : List SingerArrow.Field) (b : ColumnarBatch),
        to_record_batch (s.current_batch ++ [.RECORD stream record te v]) (f :: rest)
          = .ok b →
        b.numRows = (recordsOf s.current_batch).length + 1) := by
  refine ⟨?_, ?_, ?_⟩
  · intro w hlt
    have hnot : ¬ (s.current_batch ++ [Message.RECORD stream record te v]).length
        ≥ s.batch_size := by omega
    constructor
    · simp only [ParquetSink.add_record, Message.isRecordB, if_true]
      rw [if_neg hnot]
    · simp only [ParquetTarget.add_record, Message.isRecordB, if_true]
      rw [if_neg hnot]
  · simp [recordsOf, List.filterMap_append]
  · intro f rest b hb
    rw [numRows_of_ok _ f rest b hb]
    simp [recordsOf, List.filterMap_append]

/-- Witness for C10: a RECORD for a stream other than the one the sink
was built for is appended all the same; its document shows up in the
pending documents, and a successful materialization of the extended
batch has one more row. -/
theorem C10_variant_only_witness :
    ParquetSink.add_record goodWriter
        ⟨[⟨"id", .utf8, false⟩], "out/s.parquet", 3, []⟩ []
        (.RECORD "another_stream" (.obj [("id", .str "7")]) (some "t") 9)
      = (⟨[⟨"id", .utf8, false⟩], "out/s.parquet", 3,
          [.RECORD "another_stream" (.obj [("id", .str "7")]) (some "t") 9]⟩, [], none)
    ∧ recordsOf [Message.RECORD "another_stream" (.obj [("id", .str "7")]) (some "t") 9]
        = [.obj [("id", .str "7")]]
    ∧ ColumnarBatch.numRows ⟨[("id", [some "\"7\""])]⟩ = 0 + 1 := by
  refine ⟨?_, ?_, ?_⟩
  · exact ((C10_variant_only ⟨[⟨"id", .utf8, false⟩], "out/s.parquet", 3, []⟩ []
      "another_stream" (.obj [("id", .str "7")]) (some "t") 9).1 goodWriter (by decide)).1
  · have h := (C10_variant_only ⟨[⟨"id", .utf8, false⟩], "out/s.parquet", 3, []⟩ []
      "another_stream" (.obj [("id", .str "7")]) (some "t") 9).2.1
    simpa using h
  · have h := (C10_variant_only ⟨[⟨"id", .utf8, false⟩], "out/s.parquet", 3, []⟩ []
      "another_stream" (.obj [("id", .str "7")]) (some "t") 9).2.2
      ⟨"id", .utf8, false⟩ [] ⟨[("id", [some "\"7\""])]⟩ rfl
    simpa using h

/-- The `serde_json::Error` outcomes visible to the dispatcher: a decode
failure from `from_str`, or an error minted by a hook implementation. -/
inductive SerdeError where
  | decodeFailure : SerdeError
  | custom : String → SerdeError
deriving Repr, DecidableEq

/-- The `MessageReader` trait: five required hook methods, one per
variant, each taking the variant's fields as plain parameters (`&mut
self` is modeled as explicit state passing). -/
structure MessageReader (σ : Type) where
  process_record : σ → String → Json → Option String → Nat → Except SerdeError σ
  process_schema : σ → String → Json → List String → List String → Except SerdeError σ
  process_state : σ → Json → Except SerdeError σ
  process_activate_version : σ → String → Nat → Except SerdeError σ
  process_batch : σ → String → List String → BatchEncoding → Except SerdeError σ

/-- The `match` in the provided `process_line` body: exactly one hook per
variant, the variant's fields passed positionally (RECORD's call order is
`stream, record, time_extracted, version`, as in the source). -/
def MessageReader.dispatch {σ : Type} (h : MessageReader σ) (st : σ) :
    Message → Except SerdeError σ
  | .RECORD stream record time_extracted version =>
      h.process_record st stream record time_extracted version
  | .SCHEMA stream schema key_properties bookmark_properties =>
      h.process_schema st stream schema key_properties bookmark_properties
  | .STATE value => h.process_state st value
  | .ACTIVATE_VERSION stream version => h.process_activate_version st stream version
  | .BATCH stream manifest encoding => h.process_batch st stream manifest encoding

/-- `MessageReader::process_line`: decode the line (`?` propagates the
decode failure), then dispatch on the variant. -/
def MessageReader.process_line {σ : Type} (h : MessageReader σ) (st : σ) (line : String) :
    Except SerdeError σ :=
  match Message.from_string line with
  | none => .error .decodeFailure
  | some m => h.dispatch st m

/-- `MessageReader::process_lines`: run `process_line` over the lines in
order.  The source's `.expect` aborts the whole run at the first failing
line; the abort is modeled as the error value (nothing after the failing
line is processed). -/
def MessageReader.process_lines {σ : Type} (h : MessageReader σ) (st : σ) :
    List String → Except SerdeError σ
  | [] => .ok st
  | line :: rest => h.process_line st line >>= fun st2 => h.process_lines st2 rest

/-- One observable event per hook invocation. -/
inductive HookEvent where
  | record : String → Json → Option String → Nat → HookEvent
  | schema : String → Json → List String → List String → HookEvent
  | state : Json → HookEvent
  | activate_version : String → Nat → HookEvent
  | batch : String → List String → BatchEncoding → HookEvent
deriving Repr

/-- The event the dispatcher owes a decoded message. -/
def eventOf : Message → HookEvent
  | .RECORD s r t v => .record s r t v
  | .SCHEMA s sc k b => .schema s sc k b
  | .STATE v => .state v
  | .ACTIVATE_VERSION s v => .activate_version s v
  | .BATCH s m e => .batch s m e

/-- A reader whose hooks log their invocation and always succeed. -/
def loggingReader : MessageReader (List HookEvent) :=
  ⟨fun st s r t v => .ok (st ++ [.record s r t v]),
   fun st s sc k b => .ok (st ++ [.schema s sc k b]),
   fun st v => .ok (st ++ [.state v]),
   fun st s v => .ok (st ++ [.activate_version s v]),
   fun st s m e => .ok (st ++ [.batch s m e])⟩

/-- The logging reader's dispatch appends exactly the message's event. -/
theorem loggingReader_dispatch (st : List HookEvent) (m : Message) :
    MessageReader.dispatch loggingReader st m = .ok (st ++ [eventOf m]) := by
  cases m <;> rfl

/-- Over lines that all decode, the logging reader logs one event per
line, in line order. -/
theorem loggingReader_process_lines (lines : List String) (msgs : List Message)
    (st : List HookEvent) (h : lines.mapM Message.from_string = some msgs) :
    MessageReader.process_lines loggingReader st lines = .ok (st ++ msgs.map eventOf) := by
  induction lines generalizing msgs st with
  | nil =>
    simp only [List.mapM_nil, Option.pure_def, Option.some.injEq] at h
    subst h
    simp [MessageReader.process_lines]
  | cons l rest ih =>
    rw [List.mapM_cons] at h
    cases hl : Message.from_string l with
    | none => rw [hl] at h; simp at h
    | some m =>
      rw [hl] at h
      cases hrest : rest.mapM Message.from_string with
      | none => rw [hrest] at h; simp at h
      | some ms =>
        rw [hrest] at h
        simp at h
        subst h
        simp only [MessageReader.process_lines, MessageReader.process_line, hl,
          loggingReader_dispatch, exceptOk_bind]
        rw [ih ms _ hrest]
        simp

/-- The first non-decoding line aborts the run: nothing after it runs. -/
theorem loggingReader_process_lines_fail (good : List String) (bad : String)
    (rest : List String) (st : List HookEvent)
    (hgood : ∀ l ∈ good, (Message.from_string l).isSome = true)
    (hbad : Message.from_string bad = none) :
    MessageReader.process_lines loggingReader st (good ++ bad :: rest)
      = .error .decodeFailure := by
  induction good generalizing st with
  | nil =>
    simp [MessageReader.process_lines, MessageReader.process_line, hbad, exceptErr_bind]
  | cons l ls ih =>
    have hl := hgood l (List.mem_cons_self l ls)
    obtain ⟨m, hm⟩ := Option.isSome_iff_exists.mp hl
    simp only [List.cons_append, MessageReader.process_lines,
      MessageReader.process_line, hm, loggingReader_dispatch]
    rw [exceptOk_bind]
    exact ih (st ++ [eventOf m]) fun x hx => hgood x (List.mem_cons_of_mem l hx)

/-- C7: the dispatcher invokes exactly one of the five hooks, selected by
the decoded variant and fed the variant's fields as plain parameters (the
first five conjuncts, one per variant); a line that is the encoding of a
constructible message decodes and dispatches (sixth conjunct); over a
sequence of lines the hooks fire once per line in line order (seventh,
observed through the logging reader); and the first line that fails to
decode ends the run with the decode failure, the following lines never
processed (eighth) — the source's `.expect` makes that abort a panic
rather than a returned `Err`, modeled here as the error value. -/
theorem C7_dispatcher :
    (∀ (σ : Type) (h : MessageReader σ) (st : σ) (stream : String) (record : Json)
        (te : Option String) (v : Nat),
      MessageReader.dispatch h st (.RECORD stream record te v)
        = h.process_record st stream record te v)
    ∧ (∀ (σ : Type) (h : MessageReader σ) (st : σ) (stream : String) (schema : Json)
        (kp bp : List String),
      MessageReader.dispatch h st (.SCHEMA stream schema kp bp)
        = h.process_schema st stream schema kp bp)
    ∧ (∀ (σ : Type) (h : MessageReader σ) (st : σ) (value : Json),
      MessageReader.dispatch h st (.STATE value) = h.process_state st value)
    ∧ (∀ (σ : Type) (h : MessageReader σ) (st : σ) (stream : String) (v : Nat),
      MessageReader.dispatch h st (.ACTIVATE_VERSION stream v)
        = h.process_activate_version st stream v)
    ∧ (∀ (σ : Type) (h : MessageReader σ) (st : σ) (stream : String)
        (manifest : List String) (enc : BatchEncoding),
      MessageReader.dispatch h st (.BATCH stream manifest enc)
        = h.process_batch st stream manifest enc)
    ∧ (∀ (σ : Type) (h : MessageReader σ) (st : σ) (m : Message), m.wfB = true →
        MessageReader.process_line h st (Message.to_string m)
          = MessageReader.dispatch h st m)
    ∧ (∀ (lines : List String) (msgs : List Message) (st : List HookEvent),
        lines.mapM Message.from_string = some msgs →
        MessageReader.process_lines loggingReader st lines
          = .ok (st ++ msgs.map eventOf))
    ∧ (∀ (good : List String) (bad : String) (rest : List String) (st : List HookEvent),
        (∀ l ∈ good, (Message.from_string l).isSome = true) →
        Message.from_string bad = none →
        MessageReader.process_lines loggingReader st (good ++ bad :: rest)
          = .error .decodeFailure) := by
  refine ⟨fun _ _ _ _ _ _ _ => rfl, fun _ _ _ _ _ _ _ => rfl, fun _ _ _ _ => rfl,
    fun _ _ _ _ _ => rfl, fun _ _ _ _ _ _ => rfl, ?_,
    loggingReader_process_lines, loggingReader_process_lines_fail⟩
  intro σ h st m hwf
  have h1 : Message.from_string (Message.to_string m) = some m := by
    simp only [Message.from_string, Message.to_string]
    rw [Json.parse_render _ (Message.toJson_wfB m hwf)]
    simpa using Message.fromJson_toJson m hwf
  simp [MessageReader.process_line, h1]

/-- Witness for C7: two decoding lines fire the STATE and RECORD hooks in
line order; a failing second line aborts the run — the line after it,
although present, is never processed. -/
theorem C7_dispatcher_witness :
    MessageReader.process_lines loggingReader []
        ["\x7b\"type\":\"STATE\",\"value\":\x7b\x7d\x7d",
         "\x7b\"type\":\"RECORD\",\"stream\":\"s\",\"record\":\x7b\"id\":1\x7d\x7d"]
      = .ok [.state (.obj []), .record "s" (.obj [("id", .num 1)]) none 0]
    ∧ MessageReader.process_lines loggingReader []
        ["\x7b\"type\":\"STATE\",\"value\":\x7b\x7d\x7d", "not json", "never reached"]
      = .error .decodeFailure := by
  constructor
  · have h := C7_dispatcher.2.2.2.2.2.2.1
      ["\x7b\"type\":\"STATE\",\"value\":\x7b\x7d\x7d",
       "\x7b\"type\":\"RECORD\",\"stream\":\"s\",\"record\":\x7b\"id\":1\x7d\x7d"]
      [.STATE (.obj []), .RECORD "s" (.obj [("id", .num 1)]) none 0] [] rfl
    simpa using h
  · have h := C7_dispatcher.2.2.2.2.2.2.2
      ["\x7b\"type\":\"STATE\",\"value\":\x7b\x7d\x7d"] "not json" ["never reached"] []
      (by intro l hl; rcases List.mem_singleton.mp hl with rfl; rfl) rfl
    simpa using h
